import Mathlib

/-!
Verification development for the openshorts job orchestration engine
(src/app.py, src/job_store.py, src/models.py, src/redis_client.py).

The Python source is shallowly embedded: pure helpers become Lean
functions, the Redis-backed job store becomes an association list with
read-modify-write helpers mirroring `RedisJobStore`, and the concurrent
queue/gate/supervisor pipeline becomes a small-step transition system
over an explicit system state.  Store writes and directory creation are
modelled as total (no fault injection on the Redis connection once a
request is past its availability check); TTL-based expiry is modelled as
a nondeterministic record-deletion event.
-/

/-! ## Association lists (Python dicts / the Redis keyspace) -/

def alistGet {α : Type} : List (String × α) → String → Option α
  | [], _ => none
  | (k, v) :: t, id => if k = id then some v else alistGet t id

def alistSet {α : Type} : List (String × α) → String → α → List (String × α)
  | [], id, v => [(id, v)]
  | (k, w) :: t, id, v => if k = id then (id, v) :: t else (k, w) :: alistSet t id v

def alistRemove {α : Type} (l : List (String × α)) (id : String) : List (String × α) :=
  l.filter (fun p => p.1 != id)

theorem alistGet_set {α : Type} (l : List (String × α)) (id k : String) (v : α) :
    alistGet (alistSet l id v) k = if k = id then some v else alistGet l k := by
  induction l with
  | nil =>
    by_cases h : k = id <;> simp_all [alistSet, alistGet, eq_comm]
  | cons p t ih =>
    obtain ⟨k1, v1⟩ := p
    by_cases h1 : k1 = id <;> by_cases h2 : k = id <;> by_cases h3 : k1 = k <;>
      simp_all [alistSet, alistGet]

theorem alistGet_remove {α : Type} (l : List (String × α)) (id k : String) :
    alistGet (alistRemove l id) k = if k = id then none else alistGet l k := by
  induction l with
  | nil =>
    by_cases h : k = id <;> simp [alistRemove, alistGet, h]
  | cons p t ih =>
    obtain ⟨k1, v1⟩ := p
    by_cases h1 : k1 = id <;> by_cases h2 : k = id <;> by_cases h3 : k1 = k <;>
      simp_all [alistRemove, List.filter_cons, alistGet, bne_iff_ne]

theorem mem_alistSet {α : Type} {l : List (String × α)} {id : String} {v : α} {p : String × α}
    (h : p ∈ alistSet l id v) : p = (id, v) ∨ p ∈ l := by
  induction l with
  | nil => simpa [alistSet] using h
  | cons q t ih =>
    obtain ⟨k1, v1⟩ := q
    by_cases h1 : k1 = id <;> simp_all [alistSet] <;> tauto

theorem mem_alistRemove {α : Type} {l : List (String × α)} {id : String} {p : String × α}
    (h : p ∈ alistRemove l id) : p ∈ l :=
  List.mem_of_mem_filter h

theorem alistGet_none_of_keys {α : Type} {l : List (String × α)} {id : String}
    (h : id ∉ l.map Prod.fst) : alistGet l id = none := by
  induction l with
  | nil => rfl
  | cons p t ih =>
    obtain ⟨k1, v1⟩ := p
    simp only [List.map_cons, List.mem_cons] at h
    push_neg at h
    simp [alistGet, Ne.symm h.1, ih h.2]

theorem keys_mem_of_alistGet {α : Type} {l : List (String × α)} {id : String} {v : α}
    (h : alistGet l id = some v) : id ∈ l.map Prod.fst := by
  induction l with
  | nil => simp [alistGet] at h
  | cons p t ih =>
    obtain ⟨k1, v1⟩ := p
    by_cases h1 : k1 = id
    · simp [h1]
    · simp only [alistGet, if_neg h1] at h
      simp [ih h]

theorem alistSet_keys_present {α : Type} {l : List (String × α)} {id : String} {w v : α}
    (h : alistGet l id = some w) : (alistSet l id v).map Prod.fst = l.map Prod.fst := by
  induction l with
  | nil => simp [alistGet] at h
  | cons p t ih =>
    obtain ⟨k1, v1⟩ := p
    by_cases h1 : k1 = id
    · subst h1; simp [alistSet]
    · simp only [alistGet, if_neg h1] at h
      simp [alistSet, h1, ih h]

theorem alistSet_keys_absent {α : Type} {l : List (String × α)} {id : String} {v : α}
    (h : alistGet l id = none) : (alistSet l id v).map Prod.fst = l.map Prod.fst ++ [id] := by
  induction l with
  | nil => simp [alistSet]
  | cons p t ih =>
    obtain ⟨k1, v1⟩ := p
    by_cases h1 : k1 = id
    · subst h1; simp [alistGet] at h
    · simp only [alistGet, if_neg h1] at h
      simp [alistSet, h1, ih h]

theorem alistRemove_keys_nodup {α : Type} {l : List (String × α)} {id : String}
    (h : (l.map Prod.fst).Nodup) : ((alistRemove l id).map Prod.fst).Nodup :=
  h.sublist ((List.filter_sublist l).map Prod.fst)

/-! ## Data model (src/models.py) -/

inductive JobStatus where
  | queued
  | processing
  | completed
  | failed
deriving DecidableEq

inductive CaptionStyleEnum where
  | classic
  | boxed
  | yellow
  | minimal
  | bold
  | karaoke
  | neon
  | gradient
  | none
deriving DecidableEq

structure CaptionSettings where
  include_captions : Bool
  style : CaptionStyleEnum
  color : Option String
  outline_color : Option String
deriving DecidableEq

structure ClipResult where
  video_url : String
  title : Option String
  description_tiktok : Option String
  description_instagram : Option String
  description_youtube : Option String
deriving DecidableEq

structure JobResult where
  clips : List ClipResult
  transcript : Option String
deriving DecidableEq

/-- `JobData` of src/models.py; time stamps are abstract Nat instants. -/
structure JobRecord where
  job_id : String
  status : JobStatus
  input_url : String
  caption_settings : CaptionSettings
  created_at : Nat
  started_at : Option Nat
  completed_at : Option Nat
  progress_percentage : Int
  progress_stage : Option String
  logs : List String
  result : Option JobResult
  error : Option String
deriving DecidableEq

/-! ## The job store (src/job_store.py, `RedisJobStore`)

Each helper is read-modify-write exactly as in the source: load the full
record, mutate fields, write the full record back (`create_job`).  The
24h TTL refresh on every write is not carried in the state; expiry
appears as a deletion event of the transition system instead. -/

abbrev Store : Type := List (String × JobRecord)

def storeGet (s : Store) (id : String) : Option JobRecord := alistGet s id

/-- `RedisJobStore.create_job`: full-record upsert keyed by the record's own job_id. -/
def create_job (s : Store) (job : JobRecord) : Store := alistSet s job.job_id job

/-- `RedisJobStore.get_job`. -/
def get_job (s : Store) (id : String) : Option JobRecord := storeGet s id

/-- Shared read-modify-write shape of every `RedisJobStore` mutation helper:
load the record (silently return when absent), transform it, write it back. -/
def mutate (s : Store) (id : String) (f : JobRecord → JobRecord) : Store :=
  match get_job s id with
  | none => s
  | some j => create_job s (f j)

/-- Record transform of `append_log`. -/
def recAppendLog (j : JobRecord) (message : String) : JobRecord :=
  { j with logs := j.logs ++ [message] }

/-- Record transform of `set_status`: sets started_at on processing,
completed_at on a terminal status, and the error text only when one is given
and non-empty (Python `if error:` treats the empty string as falsy). -/
def recSetStatus (j : JobRecord) (status : JobStatus) (error : Option String)
    (now : Nat) : JobRecord :=
  let j1 := { j with status := status }
  if status = JobStatus.processing then { j1 with started_at := some now }
  else if status = JobStatus.completed ∨ status = JobStatus.failed then
    let j3 := { j1 with completed_at := some now }
    match error with
    | some e => if e = "" then j3 else { j3 with error := some e }
    | none => j3
  else j1

/-- Record transform of `update_progress` (via `update_job`): the stage is
written only when given and non-empty (Python `if stage:`). -/
def recUpdateProgress (j : JobRecord) (percentage : Int) (stage : Option String) :
    JobRecord :=
  let j1 := { j with progress_percentage := percentage }
  match stage with
  | some st => if st = "" then j1 else { j1 with progress_stage := some st }
  | none => j1

/-- Record transform of `set_result` (via `update_job`). -/
def recSetResult (j : JobRecord) (result : JobResult) : JobRecord :=
  { j with result := some result }

/-- `RedisJobStore.append_log`: silently returns when the id is unknown. -/
def append_log (s : Store) (id : String) (message : String) : Store :=
  mutate s id (fun j => recAppendLog j message)

/-- `RedisJobStore.set_status`. -/
def set_status (s : Store) (id : String) (status : JobStatus) (error : Option String)
    (now : Nat) : Store :=
  mutate s id (fun j => recSetStatus j status error now)

/-- `RedisJobStore.update_progress`. -/
def update_progress (s : Store) (id : String) (percentage : Int) (stage : Option String) :
    Store :=
  mutate s id (fun j => recUpdateProgress j percentage stage)

/-- `RedisJobStore.set_result`. -/
def set_result (s : Store) (id : String) (result : JobResult) : Store :=
  mutate s id (fun j => recSetResult j result)

/-- Records are stored under their own job_id (always true for stores built by
the system, since `create_job` keys by `job.job_id`). -/
def storeWF (s : Store) : Prop := ∀ p ∈ s, p.2.job_id = p.1

instance (s : Store) : Decidable (storeWF s) := by
  unfold storeWF; infer_instance

theorem alistGet_mem {α : Type} {l : List (String × α)} {id : String} {v : α}
    (h : alistGet l id = some v) : (id, v) ∈ l := by
  induction l with
  | nil => simp [alistGet] at h
  | cons p t ih =>
    obtain ⟨k1, v1⟩ := p
    by_cases h1 : k1 = id <;> simp_all [alistGet]

theorem storeWF_get {s : Store} (hwf : storeWF s) {id : String} {j : JobRecord}
    (h : storeGet s id = some j) : j.job_id = id :=
  hwf _ (alistGet_mem h)

/-- C10: every mutation helper, applied to an id with no record, returns the
store unchanged: no record is created and no existing record is modified. -/
theorem c10_missing_id_noop (s : Store) (id : String) (h : storeGet s id = none)
    (m : String) (st : JobStatus) (e : Option String) (now : Nat)
    (p : Int) (stg : Option String) (r : JobResult) :
    append_log s id m = s ∧ set_status s id st e now = s ∧
    update_progress s id p stg = s ∧ set_result s id r = s := by
  refine ⟨?_, ?_, ?_, ?_⟩ <;> simp [append_log, set_status, update_progress, set_result,
    mutate, get_job, h]

theorem c10_missing_id_noop_witness :
    storeGet [] "j1" = none ∧
    (append_log [] "j1" "m" = ([] : Store) ∧
      set_status [] "j1" JobStatus.failed (some "e") 3 = ([] : Store) ∧
      update_progress [] "j1" 50 (some "s") = ([] : Store) ∧
      set_result [] "j1" { clips := [], transcript := none } = ([] : Store)) :=
  ⟨rfl, c10_missing_id_noop [] "j1" rfl "m" JobStatus.failed (some "e") 3 50 (some "s")
    { clips := [], transcript := none }⟩

/-! ## The progress extractor (src/app.py, `parse_progress`)

Log lines are Python strings; we work on their character lists.
Lowercasing is modelled on the ASCII range (all rule keywords are ASCII). -/

def lowerChar (c : Char) : Char :=
  if 'A' ≤ c ∧ c ≤ 'Z' then Char.ofNat (c.toNat + 32) else c

/-- `needle in hay` on character lists: does `needle` occur as a contiguous
substring of `hay`? -/
def headMatches : List Char → List Char → Bool
  | [], _ => true
  | _ :: _, [] => false
  | a :: as, b :: bs => a == b && headMatches as bs

def subIn (needle : List Char) : List Char → Bool
  | [] => headMatches needle []
  | c :: rest => headMatches needle (c :: rest) || subIn needle rest

/-- Python `kw in line_lower` for a keyword string. -/
def strIn (needle : String) (hay : List Char) : Bool := subIn needle.data hay

/-- `parse_progress` (src/app.py lines 295-308): ordered case-insensitive
substring rules from a single log line to an optional (percentage, stage). -/
def parse_progress (log_line : String) : Option (Int × String) :=
  let line_lower := log_line.data.map lowerChar
  if strIn "downloading" line_lower then some (10, "Downloading video")
  else if strIn "transcribing" line_lower then some (30, "Transcribing audio")
  else if strIn "analyzing" line_lower || strIn "gemini" line_lower then
    some (50, "AI analysis")
  else if strIn "processing clip" line_lower || strIn "extracting" line_lower then
    some (70, "Creating clips")
  else if strIn "clip saved" line_lower || strIn "saved to" line_lower then
    some (90, "Finalizing")
  else none

/-- Modelled from the spec's rule table (section 4.5), as amended: the third
rule's matched substrings are the literal "analyzing" and the AI-vendor token
"gemini".  First matching rule wins. -/
def progressRuleTable : List (List String × Int × String) :=
  [ (["downloading"], 10, "Downloading video")
  , (["transcribing"], 30, "Transcribing audio")
  , (["analyzing", "gemini"], 50, "AI analysis")
  , (["processing clip", "extracting"], 70, "Creating clips")
  , (["clip saved", "saved to"], 90, "Finalizing") ]

def firstRule (line : List Char) : List (List String × Int × String) → Option (Int × String)
  | [] => none
  | (kws, pct, stage) :: rest =>
    if kws.any (fun kw => strIn kw line) then some (pct, stage) else firstRule line rest

def progressSpec (log_line : String) : Option (Int × String) :=
  firstRule (log_line.data.map lowerChar) progressRuleTable

/-- C7 counterexample: the line "analyze speech" matches the spec's pattern
"analyz*" (it contains the substring "analyz" after lowercasing) and contains
no earlier rule's keyword, yet `parse_progress` maps it to nothing, because the
code matches only the literal substring "analyzing". -/
theorem c7_analyz_star_counterexample :
    parse_progress "analyze speech" = none ∧
    strIn "analyz" ("analyze speech".data.map lowerChar) = true := by
  constructor <;> decide

/-- C7 as amended: `parse_progress` is a pure function equal, on every log
line, to the ordered case-insensitive substring rule table of the spec with
the third rule's matched substrings being the literal "analyzing" and the
AI-vendor token "gemini". -/
theorem c7_progress_rules (log_line : String) :
    parse_progress log_line = progressSpec log_line := by
  simp only [parse_progress, progressSpec, progressRuleTable, firstRule,
    List.any_cons, List.any_nil, Bool.or_false]

/-! ## Store operations issued by the supervisor side (src/app.py)

The scanner, finalizer and log bridge are modelled as producing the ordered
list of store calls they make; `applyOps` replays them against the store with
the faithful `RedisJobStore` helpers. -/

inductive StoreOp where
  | appendLog (id : String) (msg : String)
  | setStatus (id : String) (st : JobStatus) (err : Option String)
  | updateProgress (id : String) (pct : Int) (stage : Option String)
  | setResult (id : String) (res : JobResult)
deriving DecidableEq

def StoreOp.opId : StoreOp → String
  | .appendLog id _ => id
  | .setStatus id _ _ => id
  | .updateProgress id _ _ => id
  | .setResult id _ => id

def applyOp (now : Nat) (s : Store) : StoreOp → Store
  | .appendLog id m => append_log s id m
  | .setStatus id st e => set_status s id st e now
  | .updateProgress id p stg => update_progress s id p stg
  | .setResult id r => set_result s id r

def applyOps (now : Nat) (s : Store) (ops : List StoreOp) : Store :=
  ops.foldl (applyOp now) s

/-! ## Output directory model (the job's exclusively owned output location)

`metaFiles` is the result of `glob(os.path.join(output_dir, "*_metadata.json"))`
in glob order; each entry carries the descriptor's base name (file name minus
the "_metadata.json" tail), its byte size, and the parsed 'shorts' list
(`none` models a json.load failure).  `fileEx`/`fileSz` give existence and
size of artifact files in the same directory. -/

structure ClipMeta where
  title_youtube : Option String
  desc_tiktok : Option String
  desc_instagram : Option String
deriving DecidableEq

structure MetaFile where
  baseName : String
  size : Nat
  parsed : Option (List ClipMeta)
deriving DecidableEq

structure OutputFS where
  metaFiles : List MetaFile
  fileEx : String → Bool
  fileSz : String → Nat

/-- Artifact name for the clip at 0-based index i: `{base}_clip_{i+1}.mp4`. -/
def clip_filename (base : String) (i : Nat) : String :=
  base ++ "_clip_" ++ toString (i + 1) ++ ".mp4"

def video_url_of (jobId fname : String) : String :=
  "/videos/" ++ jobId ++ "/" ++ fname

/-- The `ClipResult(...)` built by both the scanner and the finalizer: note
`description_youtube` is also filled from 'video_title_for_youtube_short'. -/
def mkClipResult (jobId base : String) (i : Nat) (c : ClipMeta) : ClipResult :=
  { video_url := video_url_of jobId (clip_filename base i)
  , title := c.title_youtube
  , description_tiktok := c.desc_tiktok
  , description_instagram := c.desc_instagram
  , description_youtube := c.title_youtube }

/-- The ready subset: clip i is kept iff its artifact exists and is non-empty,
in descriptor order. -/
def scanReady (fs : OutputFS) (jobId : String) (base : String) (clips : List ClipMeta) :
    List ClipResult :=
  clips.enum.filterMap (fun ic =>
    let fname := clip_filename base ic.1
    if fs.fileEx fname && decide (0 < fs.fileSz fname) then
      some (mkClipResult jobId base ic.1 ic.2)
    else none)

/-- `check_partial_results_v2` (src/app.py lines 336-369): no descriptor, a
zero-byte descriptor, or a parse error produce no store call (errors are
swallowed); otherwise the ready subset is written via `set_result` only when
it is non-empty (`if ready_clips:`). -/
def check_partial_results_v2 (fs : OutputFS) (jobId : String) : List StoreOp :=
  match fs.metaFiles with
  | [] => []
  | m :: _ =>
    if m.size = 0 then []
    else
      match m.parsed with
      | none => []
      | some clips =>
        let ready := scanReady fs jobId m.baseName clips
        if ready.isEmpty then []
        else [StoreOp.setResult jobId { clips := ready, transcript := none }]

/-- `finalize_job_v2` (src/app.py lines 372-397): with no descriptor file the
job is failed with "No metadata file generated"; with a descriptor the full
clip list is built from every entry (no artifact existence check), stored via
`set_result`, then the status is set to completed — in that order.  A json
parse failure propagates as an exception (`Except.error`), to be caught by
`run_job_v2`'s handler. -/
def finalize_job_v2 (fs : OutputFS) (jobId : String) : Except String (List StoreOp) :=
  match fs.metaFiles with
  | [] => Except.ok [StoreOp.setStatus jobId JobStatus.failed (some "No metadata file generated")]
  | m :: _ =>
    match m.parsed with
    | none => Except.error "json parse error"
    | some clips =>
      Except.ok
        [ StoreOp.setResult jobId
            { clips := clips.enum.map (fun ic => mkClipResult jobId m.baseName ic.1 ic.2)
            , transcript := none }
        , StoreOp.setStatus jobId JobStatus.completed none ]

/-! ## Basic store lemmas -/

theorem create_job_get (s : Store) (j : JobRecord) (k : String) :
    storeGet (create_job s j) k = if k = j.job_id then some j else storeGet s k :=
  alistGet_set s j.job_id k j

theorem mutate_get {s : Store} (hwf : storeWF s) {f : JobRecord → JobRecord}
    (hf : ∀ j, (f j).job_id = j.job_id) (id k : String) :
    storeGet (mutate s id f) k =
      Option.map (fun j => if k = id then f j else j) (storeGet s k) := by
  unfold mutate get_job
  cases h0 : storeGet s id with
  | none =>
    by_cases hk : k = id
    · subst hk; simp [h0]
    · cases h1 : storeGet s k <;> simp [hk, h1]
  | some j0 =>
    have hid : j0.job_id = id := storeWF_get hwf h0
    rw [create_job_get, hf j0, hid]
    by_cases hk : k = id
    · subst hk; simp [h0]
    · cases h1 : storeGet s k <;> simp [hk, h1]

theorem mutate_wf {s : Store} (hwf : storeWF s) {f : JobRecord → JobRecord}
    (hf : ∀ j, (f j).job_id = j.job_id) (id : String) : storeWF (mutate s id f) := by
  unfold mutate get_job
  cases h0 : storeGet s id with
  | none => exact hwf
  | some j0 =>
    intro p hp
    rcases mem_alistSet hp with h | h
    · subst h; simp [hf]
    · exact hwf _ h

theorem recAppendLog_job_id (j : JobRecord) (m : String) :
    (recAppendLog j m).job_id = j.job_id := rfl

theorem recSetStatus_job_id (j : JobRecord) (st : JobStatus) (e : Option String) (now : Nat) :
    (recSetStatus j st e now).job_id = j.job_id := by
  cases e <;> simp only [recSetStatus] <;> split_ifs <;> rfl

theorem recUpdateProgress_job_id (j : JobRecord) (p : Int) (stg : Option String) :
    (recUpdateProgress j p stg).job_id = j.job_id := by
  cases stg <;> simp only [recUpdateProgress] <;> first | rfl | (split_ifs <;> rfl)

theorem recSetResult_job_id (j : JobRecord) (r : JobResult) :
    (recSetResult j r).job_id = j.job_id := rfl

theorem recSetStatus_status (j : JobRecord) (st : JobStatus) (e : Option String) (now : Nat) :
    (recSetStatus j st e now).status = st := by
  cases e <;> simp only [recSetStatus] <;> split_ifs <;> rfl

theorem recAppendLog_sre (j : JobRecord) (m : String) :
    (recAppendLog j m).status = j.status ∧ (recAppendLog j m).result = j.result ∧
    (recAppendLog j m).error = j.error := ⟨rfl, rfl, rfl⟩

theorem recUpdateProgress_sre (j : JobRecord) (p : Int) (stg : Option String) :
    (recUpdateProgress j p stg).status = j.status ∧
    (recUpdateProgress j p stg).result = j.result ∧
    (recUpdateProgress j p stg).error = j.error := by
  cases stg <;> simp only [recUpdateProgress] <;>
    first
      | exact ⟨rfl, rfl, rfl⟩
      | exact ⟨trivial, trivial, trivial⟩
      | (split_ifs <;> exact ⟨rfl, rfl, rfl⟩)

theorem recSetResult_status (j : JobRecord) (r : JobResult) :
    (recSetResult j r).status = j.status := rfl

theorem append_log_wf {s : Store} (hwf : storeWF s) (id m : String) :
    storeWF (append_log s id m) :=
  @mutate_wf s hwf (fun j => recAppendLog j m) (fun j => rfl) id

theorem set_status_wf {s : Store} (hwf : storeWF s) (id : String) (st : JobStatus)
    (e : Option String) (now : Nat) : storeWF (set_status s id st e now) :=
  @mutate_wf s hwf (fun j => recSetStatus j st e now)
    (fun j => recSetStatus_job_id j st e now) id

theorem update_progress_wf {s : Store} (hwf : storeWF s) (id : String) (p : Int)
    (stg : Option String) : storeWF (update_progress s id p stg) :=
  @mutate_wf s hwf (fun j => recUpdateProgress j p stg)
    (fun j => recUpdateProgress_job_id j p stg) id

theorem set_result_wf {s : Store} (hwf : storeWF s) (id : String) (r : JobResult) :
    storeWF (set_result s id r) :=
  @mutate_wf s hwf (fun j => recSetResult j r) (fun j => rfl) id

theorem applyOp_wf {s : Store} (hwf : storeWF s) (now : Nat) (op : StoreOp) :
    storeWF (applyOp now s op) := by
  cases op with
  | appendLog id m => exact append_log_wf hwf id m
  | setStatus id st e => exact set_status_wf hwf id st e now
  | updateProgress id p stg => exact update_progress_wf hwf id p stg
  | setResult id r => exact set_result_wf hwf id r

theorem applyOps_wf {s : Store} (hwf : storeWF s) (now : Nat) (ops : List StoreOp) :
    storeWF (applyOps now s ops) := by
  induction ops generalizing s with
  | nil => exact hwf
  | cons op rest ih => exact ih (applyOp_wf hwf now op)

/-- A mutation helper aimed at a different id leaves a key's record unchanged. -/
theorem mutate_get_other {s : Store} (hwf : storeWF s) {f : JobRecord → JobRecord}
    (hf : ∀ j, (f j).job_id = j.job_id) {id k : String} (hk : id ≠ k) :
    storeGet (mutate s id f) k = storeGet s k := by
  rw [@mutate_get s hwf f hf id k]
  cases h1 : storeGet s k
  · rfl
  · simp [Ne.symm hk]

/-- An op touching a different id leaves a key's record unchanged. -/
theorem applyOp_get_other {s : Store} (hwf : storeWF s) (now : Nat) {op : StoreOp}
    {k : String} (hk : op.opId ≠ k) : storeGet (applyOp now s op) k = storeGet s k := by
  cases op with
  | appendLog id m =>
    exact @mutate_get_other s hwf (fun j => recAppendLog j m) (fun j => rfl) id k hk
  | setStatus id st e =>
    exact mutate_get_other hwf (fun j => recSetStatus_job_id j st e now) hk
  | updateProgress id p stg =>
    exact mutate_get_other hwf (fun j => recUpdateProgress_job_id j p stg) hk
  | setResult id r =>
    exact @mutate_get_other s hwf (fun j => recSetResult j r) (fun j => rfl) id k hk

theorem applyOps_get_other {s : Store} (hwf : storeWF s) (now : Nat) {ops : List StoreOp}
    {k : String} (hk : ∀ op ∈ ops, op.opId ≠ k) :
    storeGet (applyOps now s ops) k = storeGet s k := by
  induction ops generalizing s with
  | nil => rfl
  | cons op rest ih =>
    rw [applyOps, List.foldl_cons]
    rw [show List.foldl (applyOp now) (applyOp now s op) rest = applyOps now (applyOp now s op) rest from rfl]
    rw [ih (applyOp_wf hwf now op) (fun o ho => hk o (List.mem_cons_of_mem _ ho))]
    exact applyOp_get_other hwf now (hk op (List.mem_cons_self _ _))

theorem mutate_get_self {s : Store} (hwf : storeWF s) {f : JobRecord → JobRecord}
    (hf : ∀ j, (f j).job_id = j.job_id) {id : String} {j : JobRecord}
    (hj : storeGet s id = some j) : storeGet (mutate s id f) id = some (f j) := by
  rw [@mutate_get s hwf f hf id id, hj]
  simp

theorem recSetStatus_result (j : JobRecord) (st : JobStatus) (e : Option String) (now : Nat) :
    (recSetStatus j st e now).result = j.result := by
  cases e <;> simp only [recSetStatus] <;> split_ifs <;> rfl

theorem recSetStatus_failed_error (j : JobRecord) (e : String) (he : e ≠ "") (now : Nat) :
    (recSetStatus j JobStatus.failed (some e) now).error = some e := by
  simp [recSetStatus, he]

/-! ## C3, C5, C6: finalizer and scanner behaviour -/

/-- C3 counterexample: when no descriptor file exists the finalizer does fail
the job, but the recorded message is "No metadata file generated", not the
spec's literal `setStatus(Failed, "no metadata produced")`. -/
theorem c3_message_counterexample :
    finalize_job_v2 { metaFiles := [], fileEx := fun _ => false, fileSz := fun _ => 0 } "j"
      = Except.ok [StoreOp.setStatus "j" JobStatus.failed (some "No metadata file generated")] ∧
    "No metadata file generated" ≠ "no metadata produced" := by
  exact ⟨rfl, by decide⟩

/-- C3 as amended: for a job whose process exited 0 with no descriptor file in
its output location, the finalizer issues exactly
`set_status(jobId, Failed, "No metadata file generated")` — a message
mentioning the missing metadata — and replaying it against the store leaves
the job Failed with that error; it is never Completed. -/
theorem c3_no_descriptor_failed (fs : OutputFS) (jobId : String) (s : Store) (j : JobRecord)
    (now : Nat) (hmeta : fs.metaFiles = []) (hwf : storeWF s)
    (hj : storeGet s jobId = some j) :
    finalize_job_v2 fs jobId =
      Except.ok [StoreOp.setStatus jobId JobStatus.failed (some "No metadata file generated")] ∧
    strIn "metadata" ("No metadata file generated".data.map lowerChar) = true ∧
    ∃ j2, storeGet (applyOps now s
        [StoreOp.setStatus jobId JobStatus.failed (some "No metadata file generated")]) jobId
        = some j2 ∧
      j2.status = JobStatus.failed ∧ j2.error = some "No metadata file generated" := by
  refine ⟨by simp [finalize_job_v2, hmeta], by decide, ?_⟩
  have hsetget : storeGet (set_status s jobId JobStatus.failed
      (some "No metadata file generated") now) jobId
      = some (recSetStatus j JobStatus.failed (some "No metadata file generated") now) := by
    exact mutate_get_self hwf
      (fun j0 => recSetStatus_job_id j0 JobStatus.failed (some "No metadata file generated") now) hj
  refine ⟨recSetStatus j JobStatus.failed (some "No metadata file generated") now, hsetget, ?_, ?_⟩
  · exact recSetStatus_status j JobStatus.failed (some "No metadata file generated") now
  · exact recSetStatus_failed_error j "No metadata file generated" (by decide) now

/-- Fixed demo inputs used to instantiate the claim theorems. -/
def demoCaption : CaptionSettings :=
  { include_captions := true, style := CaptionStyleEnum.none, color := none,
    outline_color := none }

def demoJob (id : String) : JobRecord :=
  { job_id := id, status := JobStatus.processing, input_url := "http://v",
    caption_settings := demoCaption, created_at := 0, started_at := some 1,
    completed_at := none, progress_percentage := 0, progress_stage := none,
    logs := [], result := none, error := none }

theorem c3_no_descriptor_failed_witness :
    finalize_job_v2 { metaFiles := [], fileEx := fun _ => false, fileSz := fun _ => 0 } "jA"
      = Except.ok [StoreOp.setStatus "jA" JobStatus.failed (some "No metadata file generated")] ∧
    strIn "metadata" ("No metadata file generated".data.map lowerChar) = true ∧
    ∃ j2, storeGet (applyOps 5 [("jA", demoJob "jA")]
        [StoreOp.setStatus "jA" JobStatus.failed (some "No metadata file generated")]) "jA"
        = some j2 ∧
      j2.status = JobStatus.failed ∧ j2.error = some "No metadata file generated" :=
  c3_no_descriptor_failed
    { metaFiles := [], fileEx := fun _ => false, fileSz := fun _ => 0 }
    "jA" [("jA", demoJob "jA")] (demoJob "jA") 5 rfl (by decide) (by decide)

/-- A clip entry carrying only optional text fields. -/
def cmeta (t : Option String) : ClipMeta :=
  { title_youtube := t, desc_tiktok := none, desc_instagram := none }

/-- One-descriptor output directory with the given artifact predicate. -/
def mkFS (base : String) (sz : Nat) (parsed : Option (List ClipMeta))
    (ready : String → Bool) : OutputFS :=
  { metaFiles := [{ baseName := base, size := sz, parsed := parsed }]
  , fileEx := ready
  , fileSz := fun f => if ready f then 100 else 0 }

/-- Output directory for the C5 counterexample: one listed clip, no artifact. -/
def c5EmptyFS : OutputFS := mkFS "video" 5 (some [cmeta none]) (fun _ => false)

/-- A previously stored one-clip result. -/
def c5PrevResult : JobResult :=
  { clips := [{ video_url := "/videos/jB/video_clip_1.mp4", title := none,
                description_tiktok := none, description_instagram := none,
                description_youtube := none }]
  , transcript := none }

/-- C5 counterexample: with a non-empty parsed descriptor listing one clip
whose artifact is absent, the ready subset is empty and the scanner issues no
store call at all (`if ready_clips:`), so a previously stored non-empty result
survives instead of being overwritten by the empty current subset. -/
theorem c5_empty_subset_counterexample :
    check_partial_results_v2 c5EmptyFS "jB" = [] ∧
    (∀ s : Store, applyOps 7 s (check_partial_results_v2 c5EmptyFS "jB") = s) ∧
    storeGet (applyOps 7 [("jB", { demoJob "jB" with result := some c5PrevResult })]
        (check_partial_results_v2 c5EmptyFS "jB")) "jB"
      = some { demoJob "jB" with result := some c5PrevResult } ∧
    c5PrevResult.clips ≠ [] := by
  refine ⟨by decide, fun s => rfl, by decide, by decide⟩

/-- C5 as amended: on a scan tick with a non-empty descriptor whose parsed clip
list yields a non-empty ready subset (clip i ready iff
{base}_clip_{i+1}.mp4 exists and is non-empty, in descriptor order), the
scanner issues exactly one `set_result` with that full subset, overwriting any
previously stored result.  When the ready subset is empty no write happens and
the previous result survives. -/
theorem c5_scanner_overwrites (fs : OutputFS) (jobId : String) (m : MetaFile)
    (rest : List MetaFile) (clips : List ClipMeta) (s : Store) (j : JobRecord) (now : Nat)
    (hmeta : fs.metaFiles = m :: rest) (hsz : ¬m.size = 0) (hp : m.parsed = some clips)
    (hne : scanReady fs jobId m.baseName clips ≠ [])
    (hwf : storeWF s) (hj : storeGet s jobId = some j) :
    check_partial_results_v2 fs jobId =
      [StoreOp.setResult jobId
        { clips := scanReady fs jobId m.baseName clips, transcript := none }] ∧
    ∃ j2, storeGet (applyOps now s (check_partial_results_v2 fs jobId)) jobId = some j2 ∧
      j2.result = some { clips := scanReady fs jobId m.baseName clips, transcript := none } := by
  have hops : check_partial_results_v2 fs jobId =
      [StoreOp.setResult jobId
        { clips := scanReady fs jobId m.baseName clips, transcript := none }] := by
    have hie : (scanReady fs jobId m.baseName clips).isEmpty = false := by
      cases hsc : scanReady fs jobId m.baseName clips with
      | nil => exact absurd hsc hne
      | cons a l => rfl
    simp [check_partial_results_v2, hmeta, hsz, hp, hie]
  refine ⟨hops, ?_⟩
  rw [hops]
  have hget : storeGet (set_result s jobId
      { clips := scanReady fs jobId m.baseName clips, transcript := none }) jobId
      = some (recSetResult j
        { clips := scanReady fs jobId m.baseName clips, transcript := none }) :=
    @mutate_get_self s hwf
      (fun j0 => recSetResult j0
        { clips := scanReady fs jobId m.baseName clips, transcript := none })
      (fun j0 => rfl) jobId j hj
  exact ⟨_, hget, rfl⟩

/-- The 3-clip mid-run scenario: clips 1 and 3 have non-empty artifacts, clip
2's artifact is absent. -/
def c5DemoMeta : List ClipMeta := [cmeta (some "t1"), cmeta (some "t2"), cmeta (some "t3")]

def c5DemoFS : OutputFS :=
  mkFS "video" 9 (some c5DemoMeta)
    (fun f => f == "video_clip_1.mp4" || f == "video_clip_3.mp4")

theorem c5_scanner_overwrites_witness :
    scanReady c5DemoFS "jC" "video" c5DemoMeta =
      [mkClipResult "jC" "video" 0 (cmeta (some "t1")),
       mkClipResult "jC" "video" 2 (cmeta (some "t3"))] ∧
    (check_partial_results_v2 c5DemoFS "jC" =
      [StoreOp.setResult "jC"
        { clips := scanReady c5DemoFS "jC" "video" c5DemoMeta, transcript := none }] ∧
    ∃ j2, storeGet (applyOps 3 [("jC", demoJob "jC")]
        (check_partial_results_v2 c5DemoFS "jC")) "jC" = some j2 ∧
      j2.result = some { clips := scanReady c5DemoFS "jC" "video" c5DemoMeta
                       , transcript := none }) :=
  ⟨by decide,
    c5_scanner_overwrites c5DemoFS "jC"
      { baseName := "video", size := 9, parsed := some c5DemoMeta } [] c5DemoMeta
      [("jC", demoJob "jC")] (demoJob "jC") 3 rfl (by decide) rfl (by decide) (by decide)
      (by decide)⟩

/-- C6: for a job whose process exited 0 and whose descriptor is present and
parseable, the finalizer issues exactly `set_result` with the complete ordered
clip list (one entry per descriptor entry, independent of the on-disk artifact
state: any two directories with the same descriptors finalize identically)
followed by `set_status(Completed)`, in that order; replaying the two calls
leaves the job Completed with the full list as its result. -/
theorem c6_finalizer_full_list (fs : OutputFS) (jobId : String) (m : MetaFile)
    (rest : List MetaFile) (clips : List ClipMeta) (s : Store) (j : JobRecord) (now : Nat)
    (hmeta : fs.metaFiles = m :: rest) (hp : m.parsed = some clips)
    (hwf : storeWF s) (hj : storeGet s jobId = some j) :
    finalize_job_v2 fs jobId = Except.ok
      [ StoreOp.setResult jobId
          { clips := clips.enum.map (fun ic => mkClipResult jobId m.baseName ic.1 ic.2)
          , transcript := none }
      , StoreOp.setStatus jobId JobStatus.completed none ] ∧
    (∀ fs2 : OutputFS, fs2.metaFiles = fs.metaFiles →
      finalize_job_v2 fs2 jobId = finalize_job_v2 fs jobId) ∧
    ∃ j2, storeGet (applyOps now s
        [ StoreOp.setResult jobId
            { clips := clips.enum.map (fun ic => mkClipResult jobId m.baseName ic.1 ic.2)
            , transcript := none }
        , StoreOp.setStatus jobId JobStatus.completed none ]) jobId = some j2 ∧
      j2.status = JobStatus.completed ∧
      j2.result = some
        { clips := clips.enum.map (fun ic => mkClipResult jobId m.baseName ic.1 ic.2)
        , transcript := none } := by
  refine ⟨by simp [finalize_job_v2, hmeta, hp], ?_, ?_⟩
  · intro fs2 h2
    simp [finalize_job_v2, hmeta, h2]
  · set r : JobResult :=
      { clips := clips.enum.map (fun ic => mkClipResult jobId m.baseName ic.1 ic.2)
      , transcript := none } with hr
    have hget1 : storeGet (set_result s jobId r) jobId = some (recSetResult j r) :=
      @mutate_get_self s hwf (fun j0 => recSetResult j0 r) (fun j0 => rfl) jobId j hj
    have hwf1 : storeWF (set_result s jobId r) := set_result_wf hwf jobId r
    have hget2 : storeGet (set_status (set_result s jobId r) jobId JobStatus.completed
        none now) jobId
        = some (recSetStatus (recSetResult j r) JobStatus.completed none now) :=
      mutate_get_self hwf1
        (fun j0 => recSetStatus_job_id j0 JobStatus.completed none now) hget1
    refine ⟨recSetStatus (recSetResult j r) JobStatus.completed none now, hget2, ?_, ?_⟩
    · exact recSetStatus_status _ JobStatus.completed none now
    · rw [recSetStatus_result]
      rfl

theorem c6_finalizer_full_list_witness :
    finalize_job_v2 c5DemoFS "jD" = Except.ok
      [ StoreOp.setResult "jD"
          { clips := c5DemoMeta.enum.map (fun ic => mkClipResult "jD" "video" ic.1 ic.2)
          , transcript := none }
      , StoreOp.setStatus "jD" JobStatus.completed none ] ∧
    (∀ fs2 : OutputFS, fs2.metaFiles = c5DemoFS.metaFiles →
      finalize_job_v2 fs2 "jD" = finalize_job_v2 c5DemoFS "jD") ∧
    ∃ j2, storeGet (applyOps 4 [("jD", demoJob "jD")]
        [ StoreOp.setResult "jD"
            { clips := c5DemoMeta.enum.map (fun ic => mkClipResult "jD" "video" ic.1 ic.2)
            , transcript := none }
        , StoreOp.setStatus "jD" JobStatus.completed none ]) "jD" = some j2 ∧
      j2.status = JobStatus.completed ∧
      j2.result = some
        { clips := c5DemoMeta.enum.map (fun ic => mkClipResult "jD" "video" ic.1 ic.2)
        , transcript := none } :=
  c6_finalizer_full_list c5DemoFS "jD"
    { baseName := "video", size := 9, parsed := some c5DemoMeta } [] c5DemoMeta
    [("jD", demoJob "jD")] (demoJob "jD") 4 rfl rfl (by decide) (by decide)

/-! ## C8: NotFound behaviour of the query/social endpoints (src/app.py)

The v1 in-memory `jobs` dict holds per-job dicts; `post_to_socials` reads
`job['result']['clips']` and indexes it with the request's `clip_index`
(a Python int, so negative indices within range resolve from the end and any
other out-of-range index raises IndexError).  Everything inside the handler's
`try` block — including the IndexError and the `HTTPException(404)` raised for
a missing video file — is caught by the blanket `except Exception` and
re-raised as HTTP 500.  Endpoints are modelled as returning their HTTP status
code; the external Upload-Post response status is an oracle parameter. -/

structure V1Clip where
  video_url : String
  title : Option String
  title_youtube : Option String
  desc_tiktok : Option String
  desc_instagram : Option String
deriving DecidableEq

structure V1Job where
  status : JobStatus
  logs : List String
  result : Option (List V1Clip)
deriving DecidableEq

structure SocialPostRequest where
  job_id : String
  clip_index : Int
  api_key : String
  user_id : String
  platforms : List String
  title : Option String
  tiktok_description : Option String
  instagram_description : Option String
  youtube_description : Option String
deriving DecidableEq

/-- Python list indexing: `l[i]` with negative-index wrap, IndexError outside
`[-len l, len l)`. -/
def pyIndex {α : Type} (l : List α) (i : Int) : Option α :=
  if 0 ≤ i ∧ i < (l.length : Int) then l.get? i.toNat
  else if -(l.length : Int) ≤ i ∧ i < 0 then l.get? ((l.length : Int) + i).toNat
  else none

/-- `clip['video_url'].split('/')[-1]`. -/
def lastSeg (s : String) : String := (s.splitOn "/").getLastD ""

/-- `post_to_socials` (src/app.py lines 676-755), as its HTTP status code. -/
def post_to_socials (jobs : List (String × V1Job)) (req : SocialPostRequest)
    (fileEx : String → Bool) (vendorStatus : Nat) : Nat :=
  match alistGet jobs req.job_id with
  | none => 404
  | some job =>
    match job.result with
    | none => 400
    | some clips =>
      match pyIndex clips req.clip_index with
      | none => 500
      | some clip =>
        let filename := lastSeg clip.video_url
        if !fileEx filename then 500
        else if vendorStatus == 200 || vendorStatus == 201 || vendorStatus == 202 then 200
        else 500

/-- `get_job_status_v2` (src/app.py lines 524-546), as its HTTP status code. -/
def get_job_status_v2 (redisOk : Bool) (s : Store) (job_id : String) : Nat :=
  if !redisOk then 503
  else
    match storeGet s job_id with
    | none => 404
    | some _ => 200

def c8DemoClip : V1Clip :=
  { video_url := "/videos/jE/video_clip_1.mp4", title := none, title_youtube := none,
    desc_tiktok := none, desc_instagram := none }

def c8DemoJobs : List (String × V1Job) :=
  [("jE", { status := JobStatus.completed, logs := [], result := some [c8DemoClip] })]

def c8DemoReq (i : Int) : SocialPostRequest :=
  { job_id := "jE", clip_index := i, api_key := "k", user_id := "u",
    platforms := ["tiktok"], title := none, tiktok_description := none,
    instagram_description := none, youtube_description := none }

/-- C8 counterexample: for a known job whose stored result has exactly one
clip, requesting clip index 5 is answered with HTTP 500 (the IndexError is
swallowed by the blanket handler), not with the NotFound error class (404). -/
theorem c8_clip_index_counterexample :
    post_to_socials c8DemoJobs (c8DemoReq 5) (fun _ => true) 200 = 500 ∧
    post_to_socials c8DemoJobs (c8DemoReq 5) (fun _ => true) 200 ≠ 404 := by
  exact ⟨by decide, by decide⟩

/-- C8 as amended: an unknown job id yields NotFound (404) from both
`post_to_socials` and the v2 status query, but a clip index outside the stored
result's range yields a generic 500 from `post_to_socials`, not NotFound. -/
theorem c8_not_found_routing (jobs : List (String × V1Job)) (req : SocialPostRequest)
    (fileEx : String → Bool) (vendorStatus : Nat) (s : Store) (qid : String)
    (job : V1Job) (clips : List V1Clip) :
    (alistGet jobs req.job_id = none → post_to_socials jobs req fileEx vendorStatus = 404) ∧
    (storeGet s qid = none → get_job_status_v2 true s qid = 404) ∧
    (alistGet jobs req.job_id = some job → job.result = some clips →
      (req.clip_index < -(clips.length : Int) ∨ (clips.length : Int) ≤ req.clip_index) →
      post_to_socials jobs req fileEx vendorStatus = 500) := by
  refine ⟨?_, ?_, ?_⟩
  · intro h
    simp [post_to_socials, h]
  · intro h
    simp [get_job_status_v2, h]
  · intro hj hr hrange
    have hidx : pyIndex clips req.clip_index = none := by
      unfold pyIndex
      rcases hrange with h | h
      · rw [if_neg, if_neg]
        · rintro ⟨h1, _⟩
          omega
        · rintro ⟨h1, h2⟩
          omega
      · rw [if_neg, if_neg]
        · rintro ⟨_, h2⟩
          omega
        · rintro ⟨_, h2⟩
          omega
    simp [post_to_socials, hj, hr, hidx]

theorem c8_not_found_routing_witness :
    (alistGet c8DemoJobs "nope" = none →
      post_to_socials c8DemoJobs { c8DemoReq 0 with job_id := "nope" } (fun _ => true) 200
        = 404) ∧
    (storeGet [] "nope" = none → get_job_status_v2 true [] "nope" = 404) ∧
    (alistGet c8DemoJobs "jE"
        = some { status := JobStatus.completed, logs := [], result := some [c8DemoClip] } →
      (some [c8DemoClip] : Option (List V1Clip)) = some [c8DemoClip] →
      ((5 : Int) < -(([c8DemoClip].length : Int)) ∨ (([c8DemoClip].length : Int)) ≤ 5) →
      post_to_socials c8DemoJobs { c8DemoReq 0 with job_id := "jE", clip_index := 5 }
        (fun _ => true) 200 = 500) := by
  have h := c8_not_found_routing c8DemoJobs
    { c8DemoReq 0 with job_id := "nope" } (fun _ => true) 200 [] "nope"
    { status := JobStatus.completed, logs := [], result := some [c8DemoClip] } [c8DemoClip]
  have h2 := c8_not_found_routing c8DemoJobs
    { c8DemoReq 0 with job_id := "jE", clip_index := 5 } (fun _ => true) 200 [] "nope"
    { status := JobStatus.completed, logs := [], result := some [c8DemoClip] } [c8DemoClip]
  exact ⟨h.1, h.2.1, h2.2.2⟩

/-! ## C9: persisted-mode submission (src/app.py, `process_v2`)

`get_redis()` returns None when REDIS_URL is unset or the ping fails; the
handler checks it first and raises HTTP 503 before any state is touched.
The fresh uuid and the current instant are oracle parameters. -/

def styleOfString (s : String) : Option CaptionStyleEnum :=
  if s = "classic" then some CaptionStyleEnum.classic
  else if s = "boxed" then some CaptionStyleEnum.boxed
  else if s = "yellow" then some CaptionStyleEnum.yellow
  else if s = "minimal" then some CaptionStyleEnum.minimal
  else if s = "bold" then some CaptionStyleEnum.bold
  else if s = "karaoke" then some CaptionStyleEnum.karaoke
  else if s = "neon" then some CaptionStyleEnum.neon
  else if s = "gradient" then some CaptionStyleEnum.gradient
  else if s = "none" then some CaptionStyleEnum.none
  else none

/-- Python truthiness of an optional string (None and "" are falsy). -/
def truthyStr : Option String → Option String
  | some s => if s = "" then none else some s
  | none => none

/-- `request.headers.get("X-Gemini-Key") or os.environ.get("GEMINI_API_KEY")`. -/
def pickApiKey (headerKey envKey : Option String) : Option String :=
  match truthyStr headerKey with
  | some h => some h
  | none => truthyStr envKey

/-- The freshly created job record of `process_v2`. -/
def newJobRecord (jobId url : String) (cap : CaptionSettings) (now : Nat) : JobRecord :=
  { job_id := jobId, status := JobStatus.queued, input_url := url,
    caption_settings := cap, created_at := now, started_at := none,
    completed_at := none, progress_percentage := 0, progress_stage := none,
    logs := ["Job " ++ jobId ++ " queued."], result := none, error := none }

inductive SubmitOut where
  | httpError (code : Nat) (detail : String)
  | accepted (job_id : String) (status : String)
deriving DecidableEq

/-- `process_v2` (src/app.py lines 464-521), returning its outcome and the new
(v2 store, in-memory api-key map, v2 queue) triple.  The v1 `jobs` dict is not
touched at all by this handler (no in-memory fallback), so it is not even an
input. -/
def process_v2 (redisOk : Bool) (headerKey envKey : Option String) (url : String)
    (include_captions : Bool) (caption_style : String)
    (color outline : Option String) (jobId : String) (now : Nat)
    (store : Store) (keys : List (String × String)) (queue : List String) :
    SubmitOut × Store × List (String × String) × List String :=
  if !redisOk then
    (SubmitOut.httpError 503 "v2 API requires Redis. Set REDIS_URL environment variable.",
      store, keys, queue)
  else
    match pickApiKey headerKey envKey with
    | none =>
      (SubmitOut.httpError 400 "Missing Gemini API key.", store, keys, queue)
    | some api_key =>
      match styleOfString caption_style with
      | none => (SubmitOut.httpError 400 "Invalid caption_style.", store, keys, queue)
      | some style =>
        let job := newJobRecord jobId url
          { include_captions := include_captions, style := style, color := color,
            outline_color := outline } now
        (SubmitOut.accepted jobId "queued", create_job store job,
          alistSet keys jobId api_key, queue ++ [jobId])

/-- C9: while the durable store is unreachable (`get_redis()` returns None),
`process_v2` fails synchronously with the 503 unavailable signal and no job is
created: the store, the api-key map and the queue are all left untouched (and
the handler never touches the v1 in-memory `jobs` dict at all). -/
theorem c9_unavailable_no_job (redisOk : Bool) (headerKey envKey : Option String)
    (url : String) (ic : Bool) (cs : String) (color outline : Option String)
    (jobId : String) (now : Nat) (store : Store) (keys : List (String × String))
    (queue : List String) (hdown : redisOk = false) :
    process_v2 redisOk headerKey envKey url ic cs color outline jobId now store keys queue
      = (SubmitOut.httpError 503 "v2 API requires Redis. Set REDIS_URL environment variable.",
          store, keys, queue) := by
  simp [process_v2, hdown]

theorem c9_unavailable_no_job_witness :
    process_v2 false (some "k") none "http://v" true "none" none none "jF" 9
        [] [] []
      = (SubmitOut.httpError 503 "v2 API requires Redis. Set REDIS_URL environment variable.",
          ([] : Store), ([] : List (String × String)), ([] : List String)) :=
  c9_unavailable_no_job false (some "k") none "http://v" true "none" none none "jF" 9
    [] [] [] rfl

/-! ## The orchestration pipeline as a transition system (src/app.py)

One cooperative scheduler hosts both dispatcher loops (`process_queue` for the
v1 in-memory channel, `process_queue_v2` for the Redis channel) and all
supervisor tasks; both channels share the single `concurrency_semaphore` of
capacity MAX_CONCURRENT_JOBS (K).  A `SupTask` is one running
`run_job_wrapper` / `run_job_v2_wrapper` invocation: a slot is acquired by the
dispatcher before `create_task` and released in the wrapper's `finally`, which
is modelled by `sem` decreasing at dispatch and increasing exactly when the
task is removed.  `used` is the set of ids ever handed out by uuid4 (ids are
never reused).  Job ids are submitted as oracle parameters guarded by
freshness; log lines (delivered by the fire-and-forget
`run_coroutine_threadsafe` handoff, hence possible at any time, also after the
job finished), scan results and exit codes are likewise oracle parameters.
TTL expiry of a v2 record and `cleanup_jobs` deletion of a v1 entry appear as
deletion events. -/

inductive JobChan where
  | v1
  | v2
deriving DecidableEq

inductive Phase where
  | dispatched
  | running
  | finishedRun
deriving DecidableEq

structure SupTask where
  chan : JobChan
  id : String
  phase : Phase
deriving DecidableEq

structure Sys where
  sem : Nat
  queue1 : List String
  queue2 : List String
  jobs1 : List (String × V1Job)
  store : Store
  keys : List (String × String)
  tasks : List SupTask
  used : List String

def initSys (K : Nat) : Sys :=
  { sem := K, queue1 := [], queue2 := [], jobs1 := [], store := [], keys := [],
    tasks := [], used := [] }

def setTaskPhase (ts : List SupTask) (id : String) (p : Phase) : List SupTask :=
  ts.map fun t => if t.id = id then { t with phase := p } else t

def removeTask (ts : List SupTask) (id : String) : List SupTask :=
  ts.filter fun t => t.id != id

/-- The store calls made for one decoded log line by `enqueue_output_v2`:
append it, and when `parse_progress` matches also update the progress. -/
def logLineOps (id line : String) : List StoreOp :=
  StoreOp.appendLog id line ::
    (match parse_progress line with
     | some ps => [StoreOp.updateProgress id ps.1 (some ps.2)]
     | none => [])

/-- The store calls after exit code 0: `finalize_job_v2`, whose raised json
error is caught by `run_job_v2`'s handler and recorded as a failure. -/
def finalizeOps (fs : OutputFS) (id : String) : List StoreOp :=
  match finalize_job_v2 fs id with
  | Except.ok ops => ops
  | Except.error e => [StoreOp.setStatus id JobStatus.failed (some e)]

/-- v1 read-modify-write on the in-memory `jobs` dict, guarded by presence. -/
def v1Mutate (jobs : List (String × V1Job)) (id : String) (f : V1Job → V1Job) :
    List (String × V1Job) :=
  match alistGet jobs id with
  | none => jobs
  | some j => alistSet jobs id (f j)

inductive Step (K : Nat) : Sys → Sys → Prop where
  | submit2 (s : Sys) (id url key : String) (cap : CaptionSettings) (now : Nat)
      (hfresh : id ∉ s.used) :
      Step K s { s with
        store := create_job s.store (newJobRecord id url cap now),
        keys := alistSet s.keys id key,
        queue2 := s.queue2 ++ [id],
        used := s.used ++ [id] }
  | dispatch2 (s : Sys) (id : String) (rest : List String)
      (hq : s.queue2 = id :: rest) (hsem : 0 < s.sem) :
      Step K s { s with
        sem := s.sem - 1,
        queue2 := rest,
        tasks := s.tasks ++ [{ chan := JobChan.v2, id := id, phase := Phase.dispatched }] }
  | noJob2 (s : Sys) (id : String)
      (ht : ({ chan := JobChan.v2, id := id, phase := Phase.dispatched } : SupTask) ∈ s.tasks)
      (hrec : storeGet s.store id = none) :
      Step K s { s with tasks := removeTask s.tasks id, sem := s.sem + 1 }
  | start2 (s : Sys) (id : String) (j : JobRecord) (now : Nat)
      (ht : ({ chan := JobChan.v2, id := id, phase := Phase.dispatched } : SupTask) ∈ s.tasks)
      (hrec : storeGet s.store id = some j) :
      Step K s { s with
        store := append_log (set_status s.store id JobStatus.processing none now) id
          "Job started by worker.",
        tasks := setTaskPhase s.tasks id Phase.running }
  | logLine2 (s : Sys) (id line : String) (now : Nat) :
      Step K s { s with store := applyOps now s.store (logLineOps id line) }
  | scan2 (s : Sys) (id : String) (fs : OutputFS) (now : Nat)
      (ht : ({ chan := JobChan.v2, id := id, phase := Phase.running } : SupTask) ∈ s.tasks) :
      Step K s { s with store := applyOps now s.store (check_partial_results_v2 fs id) }
  | exitZero2 (s : Sys) (id : String) (fs : OutputFS) (now : Nat)
      (ht : ({ chan := JobChan.v2, id := id, phase := Phase.running } : SupTask) ∈ s.tasks) :
      Step K s { s with
        store := applyOps now s.store (finalizeOps fs id),
        keys := alistRemove s.keys id,
        tasks := setTaskPhase s.tasks id Phase.finishedRun }
  | exitNonzero2 (s : Sys) (id : String) (n : Int) (now : Nat) (hn : n ≠ 0)
      (ht : ({ chan := JobChan.v2, id := id, phase := Phase.running } : SupTask) ∈ s.tasks) :
      Step K s { s with
        store := set_status s.store id JobStatus.failed
          (some ("Process failed with exit code " ++ toString n)) now,
        keys := alistRemove s.keys id,
        tasks := setTaskPhase s.tasks id Phase.finishedRun }
  | raise2 (s : Sys) (id msg : String) (now : Nat)
      (ht : ({ chan := JobChan.v2, id := id, phase := Phase.running } : SupTask) ∈ s.tasks) :
      Step K s { s with
        store := set_status s.store id JobStatus.failed (some msg) now,
        keys := alistRemove s.keys id,
        tasks := setTaskPhase s.tasks id Phase.finishedRun }
  | finish2 (s : Sys) (id : String)
      (ht : ({ chan := JobChan.v2, id := id, phase := Phase.finishedRun } : SupTask) ∈ s.tasks) :
      Step K s { s with tasks := removeTask s.tasks id, sem := s.sem + 1 }
  | expire2 (s : Sys) (id : String) :
      Step K s { s with store := alistRemove s.store id }
  | submit1 (s : Sys) (id : String) (hfresh : id ∉ s.used) :
      Step K s { s with
        jobs1 := alistSet s.jobs1 id
          { status := JobStatus.queued, logs := ["Job " ++ id ++ " queued."], result := none },
        queue1 := s.queue1 ++ [id],
        used := s.used ++ [id] }
  | dispatch1 (s : Sys) (id : String) (rest : List String)
      (hq : s.queue1 = id :: rest) (hsem : 0 < s.sem) :
      Step K s { s with
        sem := s.sem - 1,
        queue1 := rest,
        tasks := s.tasks ++ [{ chan := JobChan.v1, id := id, phase := Phase.dispatched }] }
  | noJob1 (s : Sys) (id : String)
      (ht : ({ chan := JobChan.v1, id := id, phase := Phase.dispatched } : SupTask) ∈ s.tasks)
      (hrec : alistGet s.jobs1 id = none) :
      Step K s { s with tasks := removeTask s.tasks id, sem := s.sem + 1 }
  | start1 (s : Sys) (id : String) (j : V1Job)
      (ht : ({ chan := JobChan.v1, id := id, phase := Phase.dispatched } : SupTask) ∈ s.tasks)
      (hrec : alistGet s.jobs1 id = some j) :
      Step K s { s with
        jobs1 := alistSet s.jobs1 id
          { j with status := JobStatus.processing
                 , logs := j.logs ++ ["Job started by worker."] },
        tasks := setTaskPhase s.tasks id Phase.running }
  | log1 (s : Sys) (id line : String) :
      Step K s { s with
        jobs1 := v1Mutate s.jobs1 id (fun j => { j with logs := j.logs ++ [line] }) }
  | scan1 (s : Sys) (id : String) (res : List V1Clip) (hne : res ≠ [])
      (ht : ({ chan := JobChan.v1, id := id, phase := Phase.running } : SupTask) ∈ s.tasks) :
      Step K s { s with
        jobs1 := v1Mutate s.jobs1 id (fun j => { j with result := some res }) }
  | term1 (s : Sys) (id : String) (st : JobStatus) (res : Option (List V1Clip))
      (hst : st = JobStatus.completed ∨ st = JobStatus.failed)
      (ht : ({ chan := JobChan.v1, id := id, phase := Phase.running } : SupTask) ∈ s.tasks) :
      Step K s { s with
        jobs1 := v1Mutate s.jobs1 id
          (fun j => { j with
                      status := st,
                      result := (match res with | some r => some r | none => j.result) }),
        tasks := setTaskPhase s.tasks id Phase.finishedRun }
  | finish1 (s : Sys) (id : String)
      (ht : ({ chan := JobChan.v1, id := id, phase := Phase.finishedRun } : SupTask) ∈ s.tasks) :
      Step K s { s with tasks := removeTask s.tasks id, sem := s.sem + 1 }
  | expire1 (s : Sys) (id : String) :
      Step K s { s with jobs1 := alistRemove s.jobs1 id }

inductive Reach (K : Nat) : Sys → Prop where
  | init : Reach K (initSys K)
  | next {s t : Sys} : Reach K s → Step K s t → Reach K t

inductive Steps (K : Nat) : Sys → Sys → Prop where
  | refl (s : Sys) : Steps K s s
  | tail {s t u : Sys} : Steps K s t → Step K t u → Steps K s u

theorem reach_of_steps {K : Nat} {s t : Sys} (h : Reach K s) (hs : Steps K s t) :
    Reach K t := by
  induction hs with
  | refl => exact h
  | tail _ hstep ih => exact Reach.next ih hstep

/-- Number of records currently in Processing status, across both channels. -/
def procKeys2 (s : Sys) : List String :=
  (s.store.filter (fun p => decide (p.2.status = JobStatus.processing))).map Prod.fst

def procKeys1 (s : Sys) : List String :=
  (s.jobs1.filter (fun p => decide (p.2.status = JobStatus.processing))).map Prod.fst

def countProcessing (s : Sys) : Nat := (procKeys2 s).length + (procKeys1 s).length

/-! ## Auxiliary lemmas about tasks and replayed op lists -/

theorem setTaskPhase_map_id (ts : List SupTask) (id : String) (p : Phase) :
    (setTaskPhase ts id p).map SupTask.id = ts.map SupTask.id := by
  unfold setTaskPhase
  rw [List.map_map]
  apply List.map_congr_left
  intro t ht
  by_cases h : t.id = id <;> simp [h]

theorem setTaskPhase_length (ts : List SupTask) (id : String) (p : Phase) :
    (setTaskPhase ts id p).length = ts.length := List.length_map ts _

theorem mem_setTaskPhase_of_ne {ts : List SupTask} {id : String} {p : Phase} {t : SupTask}
    (h : t ∈ ts) (hne : t.id ≠ id) : t ∈ setTaskPhase ts id p :=
  List.mem_map.mpr ⟨t, h, by simp [hne]⟩

theorem mem_setTaskPhase_self {ts : List SupTask} {id : String} {p : Phase} {c : JobChan}
    {ph0 : Phase} (h : ({ chan := c, id := id, phase := ph0 } : SupTask) ∈ ts) :
    ({ chan := c, id := id, phase := p } : SupTask) ∈ setTaskPhase ts id p :=
  List.mem_map.mpr ⟨_, h, by simp⟩

theorem mem_setTaskPhase_inv {ts : List SupTask} {id : String} {p : Phase} {t2 : SupTask}
    (h : t2 ∈ setTaskPhase ts id p) :
    ∃ t ∈ ts, t2 = if t.id = id then { t with phase := p } else t := by
  rcases List.mem_map.mp h with ⟨t, ht, heq⟩
  exact ⟨t, ht, heq.symm⟩

theorem removeTask_sub {ts : List SupTask} {id : String} {t : SupTask}
    (h : t ∈ removeTask ts id) : t ∈ ts := List.mem_of_mem_filter h

theorem mem_removeTask_of_ne {ts : List SupTask} {id : String} {t : SupTask}
    (h : t ∈ ts) (hne : t.id ≠ id) : t ∈ removeTask ts id :=
  List.mem_filter.mpr ⟨h, by simp [bne_iff_ne, hne]⟩

theorem removeTask_map_id_nodup {ts : List SupTask} {id : String}
    (h : (ts.map SupTask.id).Nodup) : ((removeTask ts id).map SupTask.id).Nodup :=
  h.sublist ((List.filter_sublist ts).map SupTask.id)

theorem removeTask_length {ts : List SupTask} {id : String}
    (hmem : ∃ t ∈ ts, t.id = id) (hnd : (ts.map SupTask.id).Nodup) :
    (removeTask ts id).length + 1 = ts.length := by
  induction ts with
  | nil => rcases hmem with ⟨t, ht, _⟩; cases ht
  | cons a l ih =>
    rw [List.map_cons, List.nodup_cons] at hnd
    by_cases ha : a.id = id
    · have hl : removeTask l id = l := by
        apply List.filter_eq_self.mpr
        intro t ht
        have hne : t.id ≠ id := by
          intro hti
          exact hnd.1 (by rw [ha]; exact hti ▸ List.mem_map_of_mem SupTask.id ht)
        simp [bne_iff_ne, hne]
      unfold removeTask
      rw [List.filter_cons, if_neg (by simp [bne_iff_ne, ha])]
      rw [show List.filter (fun t => t.id != id) l = removeTask l id from rfl, hl]
      simp
    · have hmem2 : ∃ t ∈ l, t.id = id := by
        rcases hmem with ⟨t, ht, hti⟩
        rcases List.mem_cons.mp ht with h | h
        · exact absurd (h ▸ hti) ha
        · exact ⟨t, h, hti⟩
      unfold removeTask
      rw [List.filter_cons, if_pos (by simp [bne_iff_ne, ha])]
      have := ih hmem2 hnd.2
      rw [show List.filter (fun t => t.id != id) l = removeTask l id from rfl]
      simp only [List.length_cons]
      omega

/-- A task id uniquely determines the task when task ids are nodup. -/
theorem task_unique {ts : List SupTask} (hnd : (ts.map SupTask.id).Nodup)
    {t1 t2 : SupTask} (h1 : t1 ∈ ts) (h2 : t2 ∈ ts) (hid : t1.id = t2.id) : t1 = t2 :=
  List.inj_on_of_nodup_map hnd h1 h2 hid

theorem mutate_keys {s : Store} (hwf : storeWF s) (f : JobRecord → JobRecord)
    (hf : ∀ j, (f j).job_id = j.job_id) (id : String) :
    (mutate s id f).map Prod.fst = s.map Prod.fst := by
  unfold mutate get_job
  cases h : storeGet s id with
  | none => rfl
  | some j =>
    show (alistSet s (f j).job_id (f j)).map Prod.fst = s.map Prod.fst
    rw [hf j, storeWF_get hwf h]
    exact alistSet_keys_present h

theorem applyOp_keys {s : Store} (hwf : storeWF s) (now : Nat) (op : StoreOp) :
    (applyOp now s op).map Prod.fst = s.map Prod.fst := by
  cases op with
  | appendLog id m => exact mutate_keys hwf (fun j => recAppendLog j m) (fun j => rfl) id
  | setStatus id st e =>
    exact mutate_keys hwf (fun j => recSetStatus j st e now)
      (fun j => recSetStatus_job_id j st e now) id
  | updateProgress id p stg =>
    exact mutate_keys hwf (fun j => recUpdateProgress j p stg)
      (fun j => recUpdateProgress_job_id j p stg) id
  | setResult id r => exact mutate_keys hwf (fun j => recSetResult j r) (fun j => rfl) id

theorem applyOps_keys {s : Store} (hwf : storeWF s) (now : Nat) (ops : List StoreOp) :
    (applyOps now s ops).map Prod.fst = s.map Prod.fst := by
  induction ops generalizing s with
  | nil => rfl
  | cons op rest ih =>
    rw [show applyOps now s (op :: rest) = applyOps now (applyOp now s op) rest from rfl]
    rw [ih (applyOp_wf hwf now op), applyOp_keys hwf now op]

/-- Field-projection preservation through one mutation. -/
theorem mutate_field {β : Type} {s : Store} (hwf : storeWF s) (f : JobRecord → JobRecord)
    (hf : ∀ j, (f j).job_id = j.job_id) (g : JobRecord → β) (hg : ∀ j, g (f j) = g j)
    (id k : String) :
    (storeGet (mutate s id f) k).map g = (storeGet s k).map g := by
  rw [@mutate_get s hwf f hf id k]
  cases h : storeGet s k with
  | none => rfl
  | some j => by_cases hk : k = id <;> simp [hk, hg]

/-- Log-bridge store calls (append + optional progress) never change any
record's status, result or error. -/
theorem logLineOps_field {β : Type} (g : JobRecord → β)
    (hA : ∀ j m, g (recAppendLog j m) = g j)
    (hU : ∀ j p stg, g (recUpdateProgress j p stg) = g j)
    {s : Store} (hwf : storeWF s) (now : Nat) (id line : String) (k : String) :
    (storeGet (applyOps now s (logLineOps id line)) k).map g = (storeGet s k).map g := by
  unfold logLineOps
  cases hp : parse_progress line with
  | none =>
    show (storeGet (applyOp now s (StoreOp.appendLog id line)) k).map g = _
    exact mutate_field hwf (fun j => recAppendLog j line) (fun j => rfl) g
      (fun j => hA j line) id k
  | some ps =>
    have h1 : storeWF (append_log s id line) := append_log_wf hwf id line
    have e1 : (storeGet (mutate (append_log s id line) id
        (fun j => recUpdateProgress j ps.1 (some ps.2))) k).map g
        = (storeGet (append_log s id line) k).map g :=
      mutate_field h1 (fun j => recUpdateProgress j ps.1 (some ps.2))
        (fun j => recUpdateProgress_job_id j ps.1 (some ps.2)) g
        (fun j => hU j ps.1 (some ps.2)) id k
    have e2 : (storeGet (mutate s id (fun j => recAppendLog j line)) k).map g
        = (storeGet s k).map g :=
      mutate_field hwf (fun j => recAppendLog j line) (fun j => rfl) g
        (fun j => hA j line) id k
    exact e1.trans e2

theorem checkPartial_cases (fs : OutputFS) (id : String) :
    check_partial_results_v2 fs id = [] ∨
    ∃ r, check_partial_results_v2 fs id = [StoreOp.setResult id r] := by
  unfold check_partial_results_v2
  cases hm : fs.metaFiles with
  | nil => exact Or.inl rfl
  | cons m rest =>
    by_cases hsz : m.size = 0
    · exact Or.inl (by simp [hsz])
    · cases hp : m.parsed with
      | none => exact Or.inl (by simp [hsz, hp])
      | some clips =>
        by_cases hie : scanReady fs id m.baseName clips = []
        · exact Or.inl (by simp [hsz, hp, hie, List.isEmpty_iff])
        · exact Or.inr ⟨{ clips := scanReady fs id m.baseName clips, transcript := none },
            by simp [hsz, hp, hie, List.isEmpty_iff]⟩

theorem finalizeOps_cases (fs : OutputFS) (id : String) :
    (∃ e, finalizeOps fs id = [StoreOp.setStatus id JobStatus.failed (some e)]) ∨
    (∃ r, finalizeOps fs id
      = [StoreOp.setResult id r, StoreOp.setStatus id JobStatus.completed none]) := by
  cases hm : fs.metaFiles with
  | nil =>
    exact Or.inl ⟨"No metadata file generated", by simp [finalizeOps, finalize_job_v2, hm]⟩
  | cons m rest =>
    cases hp : m.parsed with
    | none =>
      exact Or.inl ⟨"json parse error", by simp [finalizeOps, finalize_job_v2, hm, hp]⟩
    | some clips =>
      exact Or.inr ⟨{ clips := clips.enum.map (fun ic => mkClipResult id m.baseName ic.1 ic.2)
                    , transcript := none }, by simp [finalizeOps, finalize_job_v2, hm, hp]⟩

theorem set_status_self_status {s : Store} (hwf : storeWF s) {id : String} {st : JobStatus}
    {e : Option String} {now : Nat} {j2 : JobRecord}
    (h : storeGet (set_status s id st e now) id = some j2) : j2.status = st := by
  rw [set_status, @mutate_get s hwf (fun j => recSetStatus j st e now)
    (fun j => recSetStatus_job_id j st e now) id id] at h
  cases hs : storeGet s id with
  | none => rw [hs] at h; simp at h
  | some j0 =>
    rw [hs] at h
    simp at h
    rw [← h]
    exact recSetStatus_status j0 st e now

/-- After replaying the finalizer's calls, the job's record (when present) is
terminal. -/
theorem finalizeOps_terminal {s : Store} (hwf : storeWF s) (now : Nat) (fs : OutputFS)
    (id : String) {j2 : JobRecord}
    (h : storeGet (applyOps now s (finalizeOps fs id)) id = some j2) :
    j2.status = JobStatus.completed ∨ j2.status = JobStatus.failed := by
  rcases finalizeOps_cases fs id with ⟨e, he⟩ | ⟨r, hr⟩
  · rw [he] at h
    exact Or.inr (set_status_self_status hwf h)
  · rw [hr] at h
    have h2 : storeGet (set_status (set_result s id r) id JobStatus.completed none now) id
        = some j2 := h
    exact Or.inl (set_status_self_status (set_result_wf hwf id r) h2)

theorem opsFor_logLine (id line : String) : ∀ op ∈ logLineOps id line, op.opId = id := by
  intro op hop
  unfold logLineOps at hop
  rcases List.mem_cons.mp hop with h | h
  · subst h; rfl
  · cases hp : parse_progress line with
    | none => rw [hp] at h; cases h
    | some ps =>
      rw [hp] at h
      rcases List.mem_cons.mp h with h2 | h2
      · subst h2; rfl
      · cases h2

theorem opsFor_checkPartial (fs : OutputFS) (id : String) :
    ∀ op ∈ check_partial_results_v2 fs id, op.opId = id := by
  intro op hop
  rcases checkPartial_cases fs id with h | ⟨r, h⟩
  · rw [h] at hop; cases hop
  · rw [h] at hop
    rcases List.mem_cons.mp hop with h2 | h2
    · subst h2; rfl
    · cases h2

theorem opsFor_finalize (fs : OutputFS) (id : String) :
    ∀ op ∈ finalizeOps fs id, op.opId = id := by
  intro op hop
  rcases finalizeOps_cases fs id with ⟨e, h⟩ | ⟨r, h⟩
  · rw [h] at hop
    rcases List.mem_cons.mp hop with h2 | h2
    · subst h2; rfl
    · cases h2
  · rw [h] at hop
    rcases List.mem_cons.mp hop with h2 | h2
    · subst h2; rfl
    · rcases List.mem_cons.mp h2 with h3 | h3
      · subst h3; rfl
      · cases h3

theorem v1Mutate_keys (jobs : List (String × V1Job)) (id : String) (f : V1Job → V1Job) :
    (v1Mutate jobs id f).map Prod.fst = jobs.map Prod.fst := by
  unfold v1Mutate
  cases h : alistGet jobs id with
  | none => rfl
  | some j => exact alistSet_keys_present h

theorem v1Mutate_get_other {jobs : List (String × V1Job)} {id k : String}
    (f : V1Job → V1Job) (hk : k ≠ id) :
    alistGet (v1Mutate jobs id f) k = alistGet jobs k := by
  unfold v1Mutate
  cases h : alistGet jobs id with
  | none => rfl
  | some j => rw [alistGet_set]; simp [hk]

theorem v1Mutate_get_self {jobs : List (String × V1Job)} {id : String}
    (f : V1Job → V1Job) :
    alistGet (v1Mutate jobs id f) id = Option.map f (alistGet jobs id) := by
  unfold v1Mutate
  cases h : alistGet jobs id with
  | none => exact h
  | some j =>
    rw [alistGet_set]
    simp

theorem v1Mutate_field {β : Type} {jobs : List (String × V1Job)} {id : String}
    (f : V1Job → V1Job) (g : V1Job → β) (hg : ∀ j, g (f j) = g j) (k : String) :
    (alistGet (v1Mutate jobs id f) k).map g = (alistGet jobs k).map g := by
  unfold v1Mutate
  cases h : alistGet jobs id with
  | none => rfl
  | some j =>
    rw [alistGet_set]
    by_cases hk : k = id
    · subst hk; rw [h]; simp [hg]
    · simp [hk]

/-! ## The pipeline invariant -/

structure SysInv (K : Nat) (s : Sys) : Prop where
  semBal : s.sem + s.tasks.length = K
  taskNodup : (s.tasks.map SupTask.id).Nodup
  storeNodup : (s.store.map Prod.fst).Nodup
  jobs1Nodup : (s.jobs1.map Prod.fst).Nodup
  q1Nodup : s.queue1.Nodup
  q2Nodup : s.queue2.Nodup
  q1Task : ∀ id ∈ s.queue1, ∀ t ∈ s.tasks, t.id ≠ id
  q2Task : ∀ id ∈ s.queue2, ∀ t ∈ s.tasks, t.id ≠ id
  qDisj : ∀ id ∈ s.queue1, id ∉ s.queue2
  wf : storeWF s.store
  usedStore : ∀ p ∈ s.store, p.1 ∈ s.used
  usedJobs1 : ∀ p ∈ s.jobs1, p.1 ∈ s.used
  usedQ1 : ∀ id ∈ s.queue1, id ∈ s.used
  usedQ2 : ∀ id ∈ s.queue2, id ∈ s.used
  usedTasks : ∀ t ∈ s.tasks, t.id ∈ s.used
  procTask2 : ∀ p ∈ s.store, p.2.status = JobStatus.processing →
    ({ chan := JobChan.v2, id := p.1, phase := Phase.running } : SupTask) ∈ s.tasks
  procTask1 : ∀ p ∈ s.jobs1, p.2.status = JobStatus.processing →
    ({ chan := JobChan.v1, id := p.1, phase := Phase.running } : SupTask) ∈ s.tasks
  runRec2 : ∀ t ∈ s.tasks, t.chan = JobChan.v2 → t.phase = Phase.running →
    ∀ j, storeGet s.store t.id = some j → j.status = JobStatus.processing
  dispRec2 : ∀ t ∈ s.tasks, t.chan = JobChan.v2 → t.phase = Phase.dispatched →
    ∀ j, storeGet s.store t.id = some j → j.status = JobStatus.queued
  q2Rec : ∀ id ∈ s.queue2, ∀ j, storeGet s.store id = some j → j.status = JobStatus.queued
  keyGone : ∀ t ∈ s.tasks, t.chan = JobChan.v2 → t.phase = Phase.finishedRun →
    alistGet s.keys t.id = none
  termNoKey : ∀ p ∈ s.store,
    (p.2.status = JobStatus.completed ∨ p.2.status = JobStatus.failed) →
    alistGet s.keys p.1 = none

theorem ne_of_used {used : List String} {x id : String} (hx : x ∈ used)
    (hid : id ∉ used) : x ≠ id := fun h => hid (h ▸ hx)

theorem initSys_inv (K : Nat) : SysInv K (initSys K) := by
  refine
    { semBal := by simp [initSys]
    , taskNodup := by simp [initSys]
    , storeNodup := by simp [initSys]
    , jobs1Nodup := by simp [initSys]
    , q1Nodup := by simp [initSys]
    , q2Nodup := by simp [initSys]
    , q1Task := by simp [initSys]
    , q2Task := by simp [initSys]
    , qDisj := by simp [initSys]
    , wf := by intro p hp; simp [initSys] at hp
    , usedStore := by simp [initSys]
    , usedJobs1 := by simp [initSys]
    , usedQ1 := by simp [initSys]
    , usedQ2 := by simp [initSys]
    , usedTasks := by simp [initSys]
    , procTask2 := by simp [initSys]
    , procTask1 := by simp [initSys]
    , runRec2 := by simp [initSys]
    , dispRec2 := by simp [initSys]
    , q2Rec := by simp [initSys]
    , keyGone := by simp [initSys]
    , termNoKey := by simp [initSys] }

theorem inv_submit2 {K : Nat} {s : Sys} (hi : SysInv K s) (id url key : String)
    (cap : CaptionSettings) (now : Nat) (hfresh : id ∉ s.used) :
    SysInv K { s with
      store := create_job s.store (newJobRecord id url cap now),
      keys := alistSet s.keys id key,
      queue2 := s.queue2 ++ [id],
      used := s.used ++ [id] } := by
  have hidkeys : id ∉ s.store.map Prod.fst := by
    intro hmem
    rcases List.mem_map.mp hmem with ⟨p, hp, he⟩
    exact hfresh (he ▸ hi.usedStore p hp)
  have hget : alistGet s.store id = none := alistGet_none_of_keys hidkeys
  have hcj : create_job s.store (newJobRecord id url cap now)
      = alistSet s.store id (newJobRecord id url cap now) := rfl
  refine
    { semBal := hi.semBal
    , taskNodup := hi.taskNodup
    , storeNodup := ?_
    , jobs1Nodup := hi.jobs1Nodup
    , q1Nodup := hi.q1Nodup
    , q2Nodup := ?_
    , q1Task := ?_
    , q2Task := ?_
    , qDisj := ?_
    , wf := ?_
    , usedStore := ?_
    , usedJobs1 := ?_
    , usedQ1 := ?_
    , usedQ2 := ?_
    , usedTasks := ?_
    , procTask2 := ?_
    , procTask1 := ?_
    , runRec2 := ?_
    , dispRec2 := ?_
    , q2Rec := ?_
    , keyGone := ?_
    , termNoKey := ?_ }
  · show ((alistSet s.store id (newJobRecord id url cap now)).map Prod.fst).Nodup
    rw [alistSet_keys_absent hget]
    rw [List.nodup_append]
    exact ⟨hi.storeNodup, List.nodup_singleton id,
      fun a ha hb => by
        rcases List.mem_singleton.mp hb with rfl
        exact hidkeys ha⟩
  · show (s.queue2 ++ [id]).Nodup
    rw [List.nodup_append]
    exact ⟨hi.q2Nodup, List.nodup_singleton id,
      fun a ha hb => by
        rcases List.mem_singleton.mp hb with rfl
        exact ne_of_used (hi.usedQ2 a ha) hfresh rfl⟩
  · exact fun id2 h2 t ht => hi.q1Task id2 h2 t ht
  · intro id2 h2 t ht
    rcases List.mem_append.mp h2 with h | h
    · exact hi.q2Task id2 h t ht
    · rcases List.mem_singleton.mp h with rfl
      exact ne_of_used (hi.usedTasks t ht) hfresh
  · intro id1 h1 hmem
    rcases List.mem_append.mp hmem with h | h
    · exact hi.qDisj id1 h1 h
    · rcases List.mem_singleton.mp h with rfl
      exact ne_of_used (hi.usedQ1 id1 h1) hfresh rfl
  · intro p hp
    rcases mem_alistSet hp with h | h
    · subst h; rfl
    · exact hi.wf p h
  · intro p hp
    rcases mem_alistSet hp with h | h
    · subst h; exact List.mem_append_right _ (List.mem_singleton_self id)
    · exact List.mem_append_left _ (hi.usedStore p h)
  · exact fun p hp => List.mem_append_left _ (hi.usedJobs1 p hp)
  · exact fun id2 h2 => List.mem_append_left _ (hi.usedQ1 id2 h2)
  · intro id2 h2
    rcases List.mem_append.mp h2 with h | h
    · exact List.mem_append_left _ (hi.usedQ2 id2 h)
    · rcases List.mem_singleton.mp h with rfl
      exact List.mem_append_right _ (List.mem_singleton_self _)
  · exact fun t ht => List.mem_append_left _ (hi.usedTasks t ht)
  · intro p hp hst
    rcases mem_alistSet hp with h | h
    · subst h; simp [newJobRecord] at hst
    · exact hi.procTask2 p h hst
  · exact fun p hp hst => hi.procTask1 p hp hst
  · intro t ht hc hph j hj
    have hne : t.id ≠ id := ne_of_used (hi.usedTasks t ht) hfresh
    rw [show storeGet ({ s with
        store := create_job s.store (newJobRecord id url cap now),
        keys := alistSet s.keys id key,
        queue2 := s.queue2 ++ [id],
        used := s.used ++ [id] } : Sys).store t.id
      = alistGet (alistSet s.store id (newJobRecord id url cap now)) t.id from rfl,
      alistGet_set, if_neg hne] at hj
    exact hi.runRec2 t ht hc hph j hj
  · intro t ht hc hph j hj
    have hne : t.id ≠ id := ne_of_used (hi.usedTasks t ht) hfresh
    rw [show storeGet ({ s with
        store := create_job s.store (newJobRecord id url cap now),
        keys := alistSet s.keys id key,
        queue2 := s.queue2 ++ [id],
        used := s.used ++ [id] } : Sys).store t.id
      = alistGet (alistSet s.store id (newJobRecord id url cap now)) t.id from rfl,
      alistGet_set, if_neg hne] at hj
    exact hi.dispRec2 t ht hc hph j hj
  · intro id2 h2 j hj
    rw [show storeGet (create_job s.store (newJobRecord id url cap now)) id2
      = alistGet (alistSet s.store id (newJobRecord id url cap now)) id2 from rfl,
      alistGet_set] at hj
    rcases List.mem_append.mp h2 with h | h
    · rw [if_neg (ne_of_used (hi.usedQ2 id2 h) hfresh)] at hj
      exact hi.q2Rec id2 h j hj
    · rcases List.mem_singleton.mp h with rfl
      rw [if_pos rfl] at hj
      cases hj
      simp [newJobRecord]
  · intro t ht hc hph
    rw [alistGet_set, if_neg (ne_of_used (hi.usedTasks t ht) hfresh)]
    exact hi.keyGone t ht hc hph
  · intro p hp hterm
    rcases mem_alistSet hp with h | h
    · subst h
      simp [newJobRecord] at hterm
    · rw [alistGet_set, if_neg (ne_of_used (hi.usedStore p h) hfresh)]
      exact hi.termNoKey p h hterm

theorem alistGet_isSome_of_mem {α : Type} {l : List (String × α)} {p : String × α}
    (h : p ∈ l) : ∃ v, alistGet l p.1 = some v := by
  induction l with
  | nil => cases h
  | cons a t ih =>
    obtain ⟨a1, a2⟩ := a
    by_cases ha : a1 = p.1
    · exact ⟨a2, by simp [alistGet, ha]⟩
    · rcases List.mem_cons.mp h with h1 | h1
      · subst h1; simp at ha
      · rcases ih h1 with ⟨v, hv⟩
        exact ⟨v, by simp [alistGet, ha, hv]⟩

theorem alistGet_of_mem_nodup {α : Type} {l : List (String × α)}
    (hnd : (l.map Prod.fst).Nodup) {p : String × α} (h : p ∈ l) :
    alistGet l p.1 = some p.2 := by
  induction l with
  | nil => cases h
  | cons a t ih =>
    obtain ⟨a1, a2⟩ := a
    rw [List.map_cons, List.nodup_cons] at hnd
    rcases List.mem_cons.mp h with h1 | h1
    · rw [h1]
      simp [alistGet]
    · have hne : a1 ≠ p.1 := by
        intro he
        apply hnd.1
        rw [he]
        exact List.mem_map.mpr ⟨p, h1, rfl⟩
      simp only [alistGet, if_neg hne]
      exact ih hnd.2 h1

theorem mem_fst_used {α : Type} {l : List (String × α)} {u : List String}
    (hl : ∀ p ∈ l, p.1 ∈ u) {l2 : List (String × α)}
    (hk : l2.map Prod.fst = l.map Prod.fst) : ∀ p ∈ l2, p.1 ∈ u := by
  intro p hp
  have h1 : p.1 ∈ l2.map Prod.fst := List.mem_map_of_mem _ hp
  rw [hk] at h1
  rcases List.mem_map.mp h1 with ⟨q, hq, he⟩
  exact he ▸ hl q hq

/-- Shape of the tasks after a phase change of one id. -/
theorem mem_setTaskPhase_shape {ts : List SupTask} {id : String} {p : Phase} {t2 : SupTask}
    (h : t2 ∈ setTaskPhase ts id p) :
    ∃ t ∈ ts, t2.id = t.id ∧ t2.chan = t.chan ∧
      ((t.id ≠ id ∧ t2 = t) ∨ (t.id = id ∧ t2 = { t with phase := p })) := by
  rcases mem_setTaskPhase_inv h with ⟨t, ht, heq⟩
  by_cases hid : t.id = id
  · rw [heq, if_pos hid]
    exact ⟨t, ht, rfl, rfl, Or.inr ⟨hid, rfl⟩⟩
  · rw [heq, if_neg hid]
    exact ⟨t, ht, rfl, rfl, Or.inl ⟨hid, rfl⟩⟩

theorem mem_removeTask_unique {ts : List SupTask} (hnd : (ts.map SupTask.id).Nodup)
    {t t0 : SupTask} (ht : t ∈ ts) (ht0 : t0 ∈ ts) (hne : t ≠ t0) :
    t ∈ removeTask ts t0.id :=
  mem_removeTask_of_ne ht (fun h => hne (task_unique hnd ht ht0 h))

theorem inv_dispatch2 {K : Nat} {s : Sys} (hi : SysInv K s) (id : String)
    (rest : List String) (hq : s.queue2 = id :: rest) (hsem : 0 < s.sem) :
    SysInv K { s with
      sem := s.sem - 1,
      queue2 := rest,
      tasks := s.tasks ++ [{ chan := JobChan.v2, id := id, phase := Phase.dispatched }] } := by
  have hidq : id ∈ s.queue2 := hq ▸ List.mem_cons_self id rest
  have hrest : ∀ x ∈ rest, x ∈ s.queue2 := fun x hx => hq ▸ List.mem_cons_of_mem id hx
  have hq2nd : (id :: rest).Nodup := hq ▸ hi.q2Nodup
  rw [List.nodup_cons] at hq2nd
  have hidt : ∀ t ∈ s.tasks, t.id ≠ id := hi.q2Task id hidq
  refine
    { semBal := ?_
    , taskNodup := ?_
    , storeNodup := hi.storeNodup
    , jobs1Nodup := hi.jobs1Nodup
    , q1Nodup := hi.q1Nodup
    , q2Nodup := hq2nd.2
    , q1Task := ?_
    , q2Task := ?_
    , qDisj := ?_
    , wf := hi.wf
    , usedStore := hi.usedStore
    , usedJobs1 := hi.usedJobs1
    , usedQ1 := hi.usedQ1
    , usedQ2 := fun x hx => hi.usedQ2 x (hrest x hx)
    , usedTasks := ?_
    , procTask2 := ?_
    , procTask1 := ?_
    , runRec2 := ?_
    , dispRec2 := ?_
    , q2Rec := fun x hx => hi.q2Rec x (hrest x hx)
    , keyGone := ?_
    , termNoKey := hi.termNoKey }
  · have := hi.semBal
    simp only [List.length_append, List.length_singleton]
    omega
  · rw [List.map_append]
    rw [List.nodup_append]
    refine ⟨hi.taskNodup, by simp, ?_⟩
    intro a ha hb
    simp only [List.map_cons, List.map_nil, List.mem_singleton] at hb
    subst hb
    rcases List.mem_map.mp ha with ⟨t, ht, he⟩
    exact hidt t ht he
  · intro id1 h1 t ht
    rcases List.mem_append.mp ht with h | h
    · exact hi.q1Task id1 h1 t h
    · rcases List.mem_singleton.mp h with rfl
      show id ≠ id1
      intro he
      exact hi.qDisj id1 h1 (he ▸ hidq)
  · intro id2 h2 t ht
    rcases List.mem_append.mp ht with h | h
    · exact hi.q2Task id2 (hrest id2 h2) t h
    · rcases List.mem_singleton.mp h with rfl
      show id ≠ id2
      intro he
      exact hq2nd.1 (he ▸ h2)
  · intro id1 h1 hmem
    exact hi.qDisj id1 h1 (hrest id1 hmem)
  · intro t ht
    rcases List.mem_append.mp ht with h | h
    · exact hi.usedTasks t h
    · rcases List.mem_singleton.mp h with rfl
      exact hi.usedQ2 id hidq
  · intro p hp hst
    exact List.mem_append_left _ (hi.procTask2 p hp hst)
  · intro p hp hst
    exact List.mem_append_left _ (hi.procTask1 p hp hst)
  · intro t ht hc hph j hj
    rcases List.mem_append.mp ht with h | h
    · exact hi.runRec2 t h hc hph j hj
    · rcases List.mem_singleton.mp h with rfl
      cases hph
  · intro t ht hc hph j hj
    rcases List.mem_append.mp ht with h | h
    · exact hi.dispRec2 t h hc hph j hj
    · rcases List.mem_singleton.mp h with rfl
      exact hi.q2Rec id hidq j hj
  · intro t ht hc hph
    rcases List.mem_append.mp ht with h | h
    · exact hi.keyGone t h hc hph
    · rcases List.mem_singleton.mp h with rfl
      cases hph

theorem inv_noJob2 {K : Nat} {s : Sys} (hi : SysInv K s) (id : String)
    (ht : ({ chan := JobChan.v2, id := id, phase := Phase.dispatched } : SupTask) ∈ s.tasks)
    (hrec : storeGet s.store id = none) :
    SysInv K { s with tasks := removeTask s.tasks id, sem := s.sem + 1 } := by
  have hlen : (removeTask s.tasks id).length + 1 = s.tasks.length :=
    removeTask_length ⟨_, ht, rfl⟩ hi.taskNodup
  refine
    { semBal := ?_
    , taskNodup := removeTask_map_id_nodup hi.taskNodup
    , storeNodup := hi.storeNodup
    , jobs1Nodup := hi.jobs1Nodup
    , q1Nodup := hi.q1Nodup
    , q2Nodup := hi.q2Nodup
    , q1Task := fun x hx t ht2 => hi.q1Task x hx t (removeTask_sub ht2)
    , q2Task := fun x hx t ht2 => hi.q2Task x hx t (removeTask_sub ht2)
    , qDisj := hi.qDisj
    , wf := hi.wf
    , usedStore := hi.usedStore
    , usedJobs1 := hi.usedJobs1
    , usedQ1 := hi.usedQ1
    , usedQ2 := hi.usedQ2
    , usedTasks := fun t ht2 => hi.usedTasks t (removeTask_sub ht2)
    , procTask2 := ?_
    , procTask1 := ?_
    , runRec2 := fun t ht2 => hi.runRec2 t (removeTask_sub ht2)
    , dispRec2 := fun t ht2 => hi.dispRec2 t (removeTask_sub ht2)
    , q2Rec := hi.q2Rec
    , keyGone := fun t ht2 => hi.keyGone t (removeTask_sub ht2)
    , termNoKey := hi.termNoKey }
  · have h1 := hi.semBal
    show s.sem + 1 + (removeTask s.tasks id).length = K
    omega
  · intro p hp hst
    have hmem := hi.procTask2 p hp hst
    have hne : p.1 ≠ id := by
      intro he
      rcases alistGet_isSome_of_mem hp with ⟨v, hv⟩
      rw [he] at hv
      rw [show alistGet s.store id = storeGet s.store id from rfl, hrec] at hv
      cases hv
    exact mem_removeTask_of_ne hmem hne
  · intro p hp hst
    have hmem := hi.procTask1 p hp hst
    refine mem_removeTask_of_ne hmem ?_
    intro he
    have := task_unique hi.taskNodup hmem ht (by simpa using he)
    cases this

theorem inv_start2 {K : Nat} {s : Sys} (hi : SysInv K s) (id : String) (j : JobRecord)
    (now : Nat)
    (ht : ({ chan := JobChan.v2, id := id, phase := Phase.dispatched } : SupTask) ∈ s.tasks)
    (hrec : storeGet s.store id = some j) :
    SysInv K { s with
      store := append_log (set_status s.store id JobStatus.processing none now) id
        "Job started by worker.",
      tasks := setTaskPhase s.tasks id Phase.running } := by
  have hwf1 : storeWF (set_status s.store id JobStatus.processing none now) :=
    set_status_wf hi.wf id JobStatus.processing none now
  have hwf2 : storeWF (append_log (set_status s.store id JobStatus.processing none now) id
      "Job started by worker.") := append_log_wf hwf1 id _
  have hkeys : (append_log (set_status s.store id JobStatus.processing none now) id
      "Job started by worker.").map Prod.fst = s.store.map Prod.fst := by
    have e1 : (append_log (set_status s.store id JobStatus.processing none now) id
        "Job started by worker.").map Prod.fst
        = (set_status s.store id JobStatus.processing none now).map Prod.fst :=
      mutate_keys hwf1 (fun j0 => recAppendLog j0 "Job started by worker.") (fun j0 => rfl) id
    have e2 : (set_status s.store id JobStatus.processing none now).map Prod.fst
        = s.store.map Prod.fst :=
      mutate_keys hi.wf (fun j0 => recSetStatus j0 JobStatus.processing none now)
        (fun j0 => recSetStatus_job_id j0 JobStatus.processing none now) id
    exact e1.trans e2
  have hget_self : storeGet (append_log (set_status s.store id JobStatus.processing none now)
      id "Job started by worker.") id
      = some (recAppendLog (recSetStatus j JobStatus.processing none now)
          "Job started by worker.") := by
    have h1 : storeGet (set_status s.store id JobStatus.processing none now) id
        = some (recSetStatus j JobStatus.processing none now) :=
      @mutate_get_self s.store hi.wf
        (fun j0 => recSetStatus j0 JobStatus.processing none now)
        (fun j0 => recSetStatus_job_id j0 JobStatus.processing none now) id j hrec
    exact @mutate_get_self _ hwf1
      (fun j0 => recAppendLog j0 "Job started by worker.") (fun j0 => rfl) id _ h1
  have hget_other : ∀ k, k ≠ id →
      storeGet (append_log (set_status s.store id JobStatus.processing none now) id
        "Job started by worker.") k = storeGet s.store k := by
    intro k hk
    have e1 : storeGet (append_log (set_status s.store id JobStatus.processing none now) id
        "Job started by worker.") k
        = storeGet (set_status s.store id JobStatus.processing none now) k :=
      @mutate_get_other _ hwf1 (fun j0 => recAppendLog j0 "Job started by worker.")
        (fun j0 => rfl) id k (Ne.symm hk)
    have e2 : storeGet (set_status s.store id JobStatus.processing none now) k
        = storeGet s.store k :=
      @mutate_get_other s.store hi.wf
        (fun j0 => recSetStatus j0 JobStatus.processing none now)
        (fun j0 => recSetStatus_job_id j0 JobStatus.processing none now) id k (Ne.symm hk)
    exact e1.trans e2
  have hstat_new : (recAppendLog (recSetStatus j JobStatus.processing none now)
      "Job started by worker.").status = JobStatus.processing := by
    rw [show (recAppendLog (recSetStatus j JobStatus.processing none now)
      "Job started by worker.").status
      = (recSetStatus j JobStatus.processing none now).status from rfl]
    exact recSetStatus_status j JobStatus.processing none now
  have hnd2 : ((append_log (set_status s.store id JobStatus.processing none now) id
      "Job started by worker.").map Prod.fst).Nodup := by
    rw [hkeys]; exact hi.storeNodup
  refine
    { semBal := ?_
    , taskNodup := ?_
    , storeNodup := hnd2
    , jobs1Nodup := hi.jobs1Nodup
    , q1Nodup := hi.q1Nodup
    , q2Nodup := hi.q2Nodup
    , q1Task := ?_
    , q2Task := ?_
    , qDisj := hi.qDisj
    , wf := hwf2
    , usedStore := mem_fst_used hi.usedStore hkeys
    , usedJobs1 := hi.usedJobs1
    , usedQ1 := hi.usedQ1
    , usedQ2 := hi.usedQ2
    , usedTasks := ?_
    , procTask2 := ?_
    , procTask1 := ?_
    , runRec2 := ?_
    , dispRec2 := ?_
    , q2Rec := ?_
    , keyGone := ?_
    , termNoKey := ?_ }
  · show s.sem + (setTaskPhase s.tasks id Phase.running).length = K
    rw [setTaskPhase_length]
    exact hi.semBal
  · show ((setTaskPhase s.tasks id Phase.running).map SupTask.id).Nodup
    rw [setTaskPhase_map_id]
    exact hi.taskNodup
  · intro x hx t2 ht2
    rcases mem_setTaskPhase_shape ht2 with ⟨t, htm, hid2, hchan, hcase⟩
    rw [hid2]
    exact hi.q1Task x hx t htm
  · intro x hx t2 ht2
    rcases mem_setTaskPhase_shape ht2 with ⟨t, htm, hid2, hchan, hcase⟩
    rw [hid2]
    exact hi.q2Task x hx t htm
  · intro t2 ht2
    rcases mem_setTaskPhase_shape ht2 with ⟨t, htm, hid2, hchan, hcase⟩
    rw [hid2]
    exact hi.usedTasks t htm
  · intro p hp hst
    have hpg := alistGet_of_mem_nodup hnd2 hp
    by_cases hp1 : p.1 = id
    · rw [hp1]
      exact mem_setTaskPhase_self ht
    · rw [show alistGet (append_log (set_status s.store id JobStatus.processing none now) id
        "Job started by worker.") p.1
        = storeGet (append_log (set_status s.store id JobStatus.processing none now) id
          "Job started by worker.") p.1 from rfl, hget_other p.1 hp1] at hpg
      have hmem : (p.1, p.2) ∈ s.store := alistGet_mem hpg
      have hrun := hi.procTask2 (p.1, p.2) hmem hst
      exact mem_setTaskPhase_of_ne hrun hp1
  · intro p hp hst
    have hrun := hi.procTask1 p hp hst
    by_cases hp1 : p.1 = id
    · exfalso
      have hequ := task_unique hi.taskNodup hrun ht (by simpa using hp1)
      simp at hequ
    · exact mem_setTaskPhase_of_ne hrun hp1
  · intro t2 ht2 hc hph j2 hj2
    rcases mem_setTaskPhase_shape ht2 with ⟨t, htm, hid2, hchan, hcase⟩
    rcases hcase with ⟨hne, hteq⟩ | ⟨hide, hteq⟩
    · rw [show ({ s with
          store := append_log (set_status s.store id JobStatus.processing none now) id
            "Job started by worker.",
          tasks := setTaskPhase s.tasks id Phase.running } : Sys).store
        = append_log (set_status s.store id JobStatus.processing none now) id
          "Job started by worker." from rfl, hid2, hget_other t.id hne] at hj2
      exact hi.runRec2 t htm (hchan ▸ hc) (hteq ▸ hph) j2 hj2
    · rw [hid2, hide] at hj2
      rw [show ({ s with
          store := append_log (set_status s.store id JobStatus.processing none now) id
            "Job started by worker.",
          tasks := setTaskPhase s.tasks id Phase.running } : Sys).store
        = append_log (set_status s.store id JobStatus.processing none now) id
          "Job started by worker." from rfl, hget_self] at hj2
      cases hj2
      exact hstat_new
  · intro t2 ht2 hc hph j2 hj2
    rcases mem_setTaskPhase_shape ht2 with ⟨t, htm, hid2, hchan, hcase⟩
    rcases hcase with ⟨hne, hteq⟩ | ⟨hide, hteq⟩
    · rw [show ({ s with
          store := append_log (set_status s.store id JobStatus.processing none now) id
            "Job started by worker.",
          tasks := setTaskPhase s.tasks id Phase.running } : Sys).store
        = append_log (set_status s.store id JobStatus.processing none now) id
          "Job started by worker." from rfl, hid2, hget_other t.id hne] at hj2
      exact hi.dispRec2 t htm (hchan ▸ hc) (hteq ▸ hph) j2 hj2
    · rw [hteq] at hph
      simp at hph
  · intro x hx j2 hj2
    have hne : x ≠ id :=
      Ne.symm (hi.q2Task x hx { chan := JobChan.v2, id := id, phase := Phase.dispatched } ht)
    rw [show ({ s with
        store := append_log (set_status s.store id JobStatus.processing none now) id
          "Job started by worker.",
        tasks := setTaskPhase s.tasks id Phase.running } : Sys).store
      = append_log (set_status s.store id JobStatus.processing none now) id
        "Job started by worker." from rfl, hget_other x hne] at hj2
    exact hi.q2Rec x hx j2 hj2
  · intro t2 ht2 hc hph
    rcases mem_setTaskPhase_shape ht2 with ⟨t, htm, hid2, hchan, hcase⟩
    rcases hcase with ⟨hne, hteq⟩ | ⟨hide, hteq⟩
    · rw [hid2]
      exact hi.keyGone t htm (hchan ▸ hc) (hteq ▸ hph)
    · rw [hteq] at hph
      simp at hph
  · intro p hp hterm
    have hpg := alistGet_of_mem_nodup hnd2 hp
    by_cases hp1 : p.1 = id
    · exfalso
      rw [hp1] at hpg
      rw [show alistGet (append_log (set_status s.store id JobStatus.processing none now) id
        "Job started by worker.") id
        = storeGet (append_log (set_status s.store id JobStatus.processing none now) id
          "Job started by worker.") id from rfl, hget_self] at hpg
      injection hpg with he
      rw [← he, hstat_new] at hterm
      rcases hterm with h | h <;> cases h
    · rw [show alistGet (append_log (set_status s.store id JobStatus.processing none now) id
        "Job started by worker.") p.1
        = storeGet (append_log (set_status s.store id JobStatus.processing none now) id
          "Job started by worker.") p.1 from rfl, hget_other p.1 hp1] at hpg
      have hmem : (p.1, p.2) ∈ s.store := alistGet_mem hpg
      exact hi.termNoKey (p.1, p.2) hmem hterm

/-- Preservation for a step that only rewrites the v2 store, keeping its key
set and every record's status (log bridge lines, partial-result writes). -/
theorem inv_store_status_step {K : Nat} {s : Sys} (hi : SysInv K s) (st2 : Store)
    (hkeys : st2.map Prod.fst = s.store.map Prod.fst)
    (hwf2 : storeWF st2)
    (hstatus : ∀ k, (storeGet st2 k).map JobRecord.status
      = (storeGet s.store k).map JobRecord.status) :
    SysInv K { s with store := st2 } := by
  have hnd2 : (st2.map Prod.fst).Nodup := by rw [hkeys]; exact hi.storeNodup
  have hback : ∀ (p : String × JobRecord), p ∈ st2 →
      ∃ q, storeGet s.store p.1 = some q ∧ q.status = p.2.status := by
    intro p hp
    have hpg : alistGet st2 p.1 = some p.2 := alistGet_of_mem_nodup hnd2 hp
    have h1 : (storeGet s.store p.1).map JobRecord.status = some p.2.status := by
      rw [← hstatus p.1]
      rw [show storeGet st2 p.1 = alistGet st2 p.1 from rfl, hpg]
      rfl
    rcases Option.map_eq_some'.mp h1 with ⟨q, hq, hqs⟩
    exact ⟨q, hq, hqs⟩
  have hfwd : ∀ (k : String) (j2 : JobRecord), storeGet st2 k = some j2 →
      ∃ q, storeGet s.store k = some q ∧ q.status = j2.status := by
    intro k j2 hk
    have h1 : (storeGet s.store k).map JobRecord.status = some j2.status := by
      rw [← hstatus k, hk]
      rfl
    rcases Option.map_eq_some'.mp h1 with ⟨q, hq, hqs⟩
    exact ⟨q, hq, hqs⟩
  refine
    { semBal := hi.semBal
    , taskNodup := hi.taskNodup
    , storeNodup := hnd2
    , jobs1Nodup := hi.jobs1Nodup
    , q1Nodup := hi.q1Nodup
    , q2Nodup := hi.q2Nodup
    , q1Task := hi.q1Task
    , q2Task := hi.q2Task
    , qDisj := hi.qDisj
    , wf := hwf2
    , usedStore := mem_fst_used hi.usedStore hkeys
    , usedJobs1 := hi.usedJobs1
    , usedQ1 := hi.usedQ1
    , usedQ2 := hi.usedQ2
    , usedTasks := hi.usedTasks
    , procTask2 := ?_
    , procTask1 := hi.procTask1
    , runRec2 := ?_
    , dispRec2 := ?_
    , q2Rec := ?_
    , keyGone := hi.keyGone
    , termNoKey := ?_ }
  · intro p hp hst
    rcases hback p hp with ⟨q, hq, hqs⟩
    exact hi.procTask2 (p.1, q) (alistGet_mem hq) (hst ▸ hqs)
  · intro t ht2 hc hph j2 hj2
    rcases hfwd t.id j2 hj2 with ⟨q, hq, hqs⟩
    rw [← hqs]
    exact hi.runRec2 t ht2 hc hph q hq
  · intro t ht2 hc hph j2 hj2
    rcases hfwd t.id j2 hj2 with ⟨q, hq, hqs⟩
    rw [← hqs]
    exact hi.dispRec2 t ht2 hc hph q hq
  · intro x hx j2 hj2
    rcases hfwd x j2 hj2 with ⟨q, hq, hqs⟩
    rw [← hqs]
    exact hi.q2Rec x hx q hq
  · intro p hp hterm
    rcases hback p hp with ⟨q, hq, hqs⟩
    exact hi.termNoKey (p.1, q) (alistGet_mem hq) (by rw [hqs]; exact hterm)

/-- Preservation for a supervisor's terminal transition on a running v2 task:
the store's record at that id (when present) becomes terminal, the api key is
deleted, and the task moves to finishedRun. -/
theorem inv_term_step {K : Nat} {s : Sys} (hi : SysInv K s) (id : String) (st2 : Store)
    (ht : ({ chan := JobChan.v2, id := id, phase := Phase.running } : SupTask) ∈ s.tasks)
    (hkeys : st2.map Prod.fst = s.store.map Prod.fst)
    (hwf2 : storeWF st2)
    (hother : ∀ k, k ≠ id → storeGet st2 k = storeGet s.store k)
    (hterm : ∀ j2, storeGet st2 id = some j2 →
      j2.status = JobStatus.completed ∨ j2.status = JobStatus.failed) :
    SysInv K { s with
      store := st2,
      keys := alistRemove s.keys id,
      tasks := setTaskPhase s.tasks id Phase.finishedRun } := by
  have hnd2 : (st2.map Prod.fst).Nodup := by rw [hkeys]; exact hi.storeNodup
  refine
    { semBal := ?_
    , taskNodup := ?_
    , storeNodup := hnd2
    , jobs1Nodup := hi.jobs1Nodup
    , q1Nodup := hi.q1Nodup
    , q2Nodup := hi.q2Nodup
    , q1Task := ?_
    , q2Task := ?_
    , qDisj := hi.qDisj
    , wf := hwf2
    , usedStore := mem_fst_used hi.usedStore hkeys
    , usedJobs1 := hi.usedJobs1
    , usedQ1 := hi.usedQ1
    , usedQ2 := hi.usedQ2
    , usedTasks := ?_
    , procTask2 := ?_
    , procTask1 := ?_
    , runRec2 := ?_
    , dispRec2 := ?_
    , q2Rec := ?_
    , keyGone := ?_
    , termNoKey := ?_ }
  · show s.sem + (setTaskPhase s.tasks id Phase.finishedRun).length = K
    rw [setTaskPhase_length]
    exact hi.semBal
  · show ((setTaskPhase s.tasks id Phase.finishedRun).map SupTask.id).Nodup
    rw [setTaskPhase_map_id]
    exact hi.taskNodup
  · intro x hx t2 ht2
    rcases mem_setTaskPhase_shape ht2 with ⟨t, htm, hid2, _, _⟩
    rw [hid2]
    exact hi.q1Task x hx t htm
  · intro x hx t2 ht2
    rcases mem_setTaskPhase_shape ht2 with ⟨t, htm, hid2, _, _⟩
    rw [hid2]
    exact hi.q2Task x hx t htm
  · intro t2 ht2
    rcases mem_setTaskPhase_shape ht2 with ⟨t, htm, hid2, _, _⟩
    rw [hid2]
    exact hi.usedTasks t htm
  · intro p hp hst
    have hpg : alistGet st2 p.1 = some p.2 := alistGet_of_mem_nodup hnd2 hp
    by_cases hp1 : p.1 = id
    · exfalso
      rw [hp1] at hpg
      rcases hterm p.2 hpg with h | h <;> rw [hst] at h <;> cases h
    · rw [show alistGet st2 p.1 = storeGet st2 p.1 from rfl, hother p.1 hp1] at hpg
      have hrun := hi.procTask2 (p.1, p.2) (alistGet_mem hpg) hst
      exact mem_setTaskPhase_of_ne hrun hp1
  · intro p hp hst
    have hrun := hi.procTask1 p hp hst
    by_cases hp1 : p.1 = id
    · exfalso
      have hequ := task_unique hi.taskNodup hrun ht (by simpa using hp1)
      simp at hequ
    · exact mem_setTaskPhase_of_ne hrun hp1
  · intro t2 ht2 hc hph j2 hj2
    rcases mem_setTaskPhase_shape ht2 with ⟨t, htm, hid2, hchan, hcase⟩
    rcases hcase with ⟨hne, hteq⟩ | ⟨hide, hteq⟩
    · rw [show ({ s with
          store := st2,
          keys := alistRemove s.keys id,
          tasks := setTaskPhase s.tasks id Phase.finishedRun } : Sys).store = st2 from rfl,
        hid2, hother t.id hne] at hj2
      exact hi.runRec2 t htm (hchan ▸ hc) (hteq ▸ hph) j2 hj2
    · rw [hteq] at hph
      simp at hph
  · intro t2 ht2 hc hph j2 hj2
    rcases mem_setTaskPhase_shape ht2 with ⟨t, htm, hid2, hchan, hcase⟩
    rcases hcase with ⟨hne, hteq⟩ | ⟨hide, hteq⟩
    · rw [show ({ s with
          store := st2,
          keys := alistRemove s.keys id,
          tasks := setTaskPhase s.tasks id Phase.finishedRun } : Sys).store = st2 from rfl,
        hid2, hother t.id hne] at hj2
      exact hi.dispRec2 t htm (hchan ▸ hc) (hteq ▸ hph) j2 hj2
    · rw [hteq] at hph
      simp at hph
  · intro x hx j2 hj2
    have hne : x ≠ id :=
      Ne.symm (hi.q2Task x hx { chan := JobChan.v2, id := id, phase := Phase.running } ht)
    rw [show ({ s with
        store := st2,
        keys := alistRemove s.keys id,
        tasks := setTaskPhase s.tasks id Phase.finishedRun } : Sys).store = st2 from rfl,
      hother x hne] at hj2
    exact hi.q2Rec x hx j2 hj2
  · intro t2 ht2 hc hph
    by_cases ht2id : t2.id = id
    · rw [ht2id]
      rw [show ({ s with
          store := st2,
          keys := alistRemove s.keys id,
          tasks := setTaskPhase s.tasks id Phase.finishedRun } : Sys).keys
        = alistRemove s.keys id from rfl, alistGet_remove, if_pos rfl]
    · rcases mem_setTaskPhase_shape ht2 with ⟨t, htm, hid2, hchan, hcase⟩
      rcases hcase with ⟨hne, hteq⟩ | ⟨hide, hteq⟩
      · rw [show ({ s with
            store := st2,
            keys := alistRemove s.keys id,
            tasks := setTaskPhase s.tasks id Phase.finishedRun } : Sys).keys
          = alistRemove s.keys id from rfl, alistGet_remove, if_neg ht2id, hid2]
        exact hi.keyGone t htm (hchan ▸ hc) (hteq ▸ hph)
      · exact absurd (hid2.trans hide) ht2id
  · intro p hp hterm2
    have hpg : alistGet st2 p.1 = some p.2 := alistGet_of_mem_nodup hnd2 hp
    by_cases hp1 : p.1 = id
    · rw [show ({ s with
          store := st2,
          keys := alistRemove s.keys id,
          tasks := setTaskPhase s.tasks id Phase.finishedRun } : Sys).keys
        = alistRemove s.keys id from rfl, alistGet_remove, hp1, if_pos rfl]
    · rw [show alistGet st2 p.1 = storeGet st2 p.1 from rfl, hother p.1 hp1] at hpg
      rw [show ({ s with
          store := st2,
          keys := alistRemove s.keys id,
          tasks := setTaskPhase s.tasks id Phase.finishedRun } : Sys).keys
        = alistRemove s.keys id from rfl, alistGet_remove, if_neg hp1]
      exact hi.termNoKey (p.1, p.2) (alistGet_mem hpg) hterm2

/-- Preservation for the wrapper's finally step: a non-running task is removed
and its semaphore slot is released. -/
theorem inv_remove_task {K : Nat} {s : Sys} (hi : SysInv K s) (t0 : SupTask)
    (ht : t0 ∈ s.tasks) (hph : t0.phase ≠ Phase.running) :
    SysInv K { s with tasks := removeTask s.tasks t0.id, sem := s.sem + 1 } := by
  have hlen : (removeTask s.tasks t0.id).length + 1 = s.tasks.length :=
    removeTask_length ⟨t0, ht, rfl⟩ hi.taskNodup
  refine
    { semBal := ?_
    , taskNodup := removeTask_map_id_nodup hi.taskNodup
    , storeNodup := hi.storeNodup
    , jobs1Nodup := hi.jobs1Nodup
    , q1Nodup := hi.q1Nodup
    , q2Nodup := hi.q2Nodup
    , q1Task := fun x hx t ht2 => hi.q1Task x hx t (removeTask_sub ht2)
    , q2Task := fun x hx t ht2 => hi.q2Task x hx t (removeTask_sub ht2)
    , qDisj := hi.qDisj
    , wf := hi.wf
    , usedStore := hi.usedStore
    , usedJobs1 := hi.usedJobs1
    , usedQ1 := hi.usedQ1
    , usedQ2 := hi.usedQ2
    , usedTasks := fun t ht2 => hi.usedTasks t (removeTask_sub ht2)
    , procTask2 := ?_
    , procTask1 := ?_
    , runRec2 := fun t ht2 => hi.runRec2 t (removeTask_sub ht2)
    , dispRec2 := fun t ht2 => hi.dispRec2 t (removeTask_sub ht2)
    , q2Rec := hi.q2Rec
    , keyGone := fun t ht2 => hi.keyGone t (removeTask_sub ht2)
    , termNoKey := hi.termNoKey }
  · have h1 := hi.semBal
    show s.sem + 1 + (removeTask s.tasks t0.id).length = K
    omega
  · intro p hp hst
    have hmem := hi.procTask2 p hp hst
    refine mem_removeTask_unique hi.taskNodup hmem ht ?_
    intro he
    exact hph (he ▸ rfl)
  · intro p hp hst
    have hmem := hi.procTask1 p hp hst
    refine mem_removeTask_unique hi.taskNodup hmem ht ?_
    intro he
    exact hph (he ▸ rfl)

theorem inv_expire2 {K : Nat} {s : Sys} (hi : SysInv K s) (id : String) :
    SysInv K { s with store := alistRemove s.store id } := by
  refine
    { semBal := hi.semBal
    , taskNodup := hi.taskNodup
    , storeNodup := alistRemove_keys_nodup hi.storeNodup
    , jobs1Nodup := hi.jobs1Nodup
    , q1Nodup := hi.q1Nodup
    , q2Nodup := hi.q2Nodup
    , q1Task := hi.q1Task
    , q2Task := hi.q2Task
    , qDisj := hi.qDisj
    , wf := fun p hp => hi.wf p (mem_alistRemove hp)
    , usedStore := fun p hp => hi.usedStore p (mem_alistRemove hp)
    , usedJobs1 := hi.usedJobs1
    , usedQ1 := hi.usedQ1
    , usedQ2 := hi.usedQ2
    , usedTasks := hi.usedTasks
    , procTask2 := fun p hp => hi.procTask2 p (mem_alistRemove hp)
    , procTask1 := hi.procTask1
    , runRec2 := ?_
    , dispRec2 := ?_
    , q2Rec := ?_
    , keyGone := hi.keyGone
    , termNoKey := fun p hp => hi.termNoKey p (mem_alistRemove hp) }
  · intro t ht2 hc hph j2 hj2
    rw [show storeGet ({ s with store := alistRemove s.store id } : Sys).store t.id
      = alistGet (alistRemove s.store id) t.id from rfl, alistGet_remove] at hj2
    by_cases hk : t.id = id
    · rw [if_pos hk] at hj2; cases hj2
    · rw [if_neg hk] at hj2
      exact hi.runRec2 t ht2 hc hph j2 hj2
  · intro t ht2 hc hph j2 hj2
    rw [show storeGet ({ s with store := alistRemove s.store id } : Sys).store t.id
      = alistGet (alistRemove s.store id) t.id from rfl, alistGet_remove] at hj2
    by_cases hk : t.id = id
    · rw [if_pos hk] at hj2; cases hj2
    · rw [if_neg hk] at hj2
      exact hi.dispRec2 t ht2 hc hph j2 hj2
  · intro x hx j2 hj2
    rw [show storeGet ({ s with store := alistRemove s.store id } : Sys).store x
      = alistGet (alistRemove s.store id) x from rfl, alistGet_remove] at hj2
    by_cases hk : x = id
    · rw [if_pos hk] at hj2; cases hj2
    · rw [if_neg hk] at hj2
      exact hi.q2Rec x hx j2 hj2

theorem inv_submit1 {K : Nat} {s : Sys} (hi : SysInv K s) (id : String)
    (hfresh : id ∉ s.used) :
    SysInv K { s with
      jobs1 := alistSet s.jobs1 id
        { status := JobStatus.queued, logs := ["Job " ++ id ++ " queued."], result := none },
      queue1 := s.queue1 ++ [id],
      used := s.used ++ [id] } := by
  have hidkeys : id ∉ s.jobs1.map Prod.fst := by
    intro hmem
    rcases List.mem_map.mp hmem with ⟨p, hp, he⟩
    exact hfresh (he ▸ hi.usedJobs1 p hp)
  have hget : alistGet s.jobs1 id = none := alistGet_none_of_keys hidkeys
  refine
    { semBal := hi.semBal
    , taskNodup := hi.taskNodup
    , storeNodup := hi.storeNodup
    , jobs1Nodup := ?_
    , q1Nodup := ?_
    , q2Nodup := hi.q2Nodup
    , q1Task := ?_
    , q2Task := hi.q2Task
    , qDisj := ?_
    , wf := hi.wf
    , usedStore := fun p hp => List.mem_append_left _ (hi.usedStore p hp)
    , usedJobs1 := ?_
    , usedQ1 := ?_
    , usedQ2 := fun x hx => List.mem_append_left _ (hi.usedQ2 x hx)
    , usedTasks := fun t ht => List.mem_append_left _ (hi.usedTasks t ht)
    , procTask2 := hi.procTask2
    , procTask1 := ?_
    , runRec2 := hi.runRec2
    , dispRec2 := hi.dispRec2
    , q2Rec := hi.q2Rec
    , keyGone := hi.keyGone
    , termNoKey := hi.termNoKey }
  · show ((alistSet s.jobs1 id _).map Prod.fst).Nodup
    rw [alistSet_keys_absent hget, List.nodup_append]
    exact ⟨hi.jobs1Nodup, List.nodup_singleton id,
      fun a ha hb => by
        rcases List.mem_singleton.mp hb with rfl
        exact hidkeys ha⟩
  · show (s.queue1 ++ [id]).Nodup
    rw [List.nodup_append]
    exact ⟨hi.q1Nodup, List.nodup_singleton id,
      fun a ha hb => by
        rcases List.mem_singleton.mp hb with rfl
        exact ne_of_used (hi.usedQ1 a ha) hfresh rfl⟩
  · intro x hx t ht
    rcases List.mem_append.mp hx with h | h
    · exact hi.q1Task x h t ht
    · rcases List.mem_singleton.mp h with rfl
      exact ne_of_used (hi.usedTasks t ht) hfresh
  · intro x hx
    rcases List.mem_append.mp hx with h | h
    · exact hi.qDisj x h
    · rcases List.mem_singleton.mp h with rfl
      intro hmem
      exact hfresh (hi.usedQ2 x hmem)
  · intro p hp
    rcases mem_alistSet hp with h | h
    · subst h; exact List.mem_append_right _ (List.mem_singleton_self _)
    · exact List.mem_append_left _ (hi.usedJobs1 p h)
  · intro x hx
    rcases List.mem_append.mp hx with h | h
    · exact List.mem_append_left _ (hi.usedQ1 x h)
    · rcases List.mem_singleton.mp h with rfl
      exact List.mem_append_right _ (List.mem_singleton_self _)
  · intro p hp hst
    rcases mem_alistSet hp with h | h
    · subst h; simp at hst
    · exact hi.procTask1 p h hst

theorem inv_dispatch1 {K : Nat} {s : Sys} (hi : SysInv K s) (id : String)
    (rest : List String) (hq : s.queue1 = id :: rest) (hsem : 0 < s.sem) :
    SysInv K { s with
      sem := s.sem - 1,
      queue1 := rest,
      tasks := s.tasks ++ [{ chan := JobChan.v1, id := id, phase := Phase.dispatched }] } := by
  have hidq : id ∈ s.queue1 := hq ▸ List.mem_cons_self id rest
  have hrest : ∀ x ∈ rest, x ∈ s.queue1 := fun x hx => hq ▸ List.mem_cons_of_mem id hx
  have hq1nd : (id :: rest).Nodup := hq ▸ hi.q1Nodup
  rw [List.nodup_cons] at hq1nd
  have hidt : ∀ t ∈ s.tasks, t.id ≠ id := hi.q1Task id hidq
  refine
    { semBal := ?_
    , taskNodup := ?_
    , storeNodup := hi.storeNodup
    , jobs1Nodup := hi.jobs1Nodup
    , q1Nodup := hq1nd.2
    , q2Nodup := hi.q2Nodup
    , q1Task := ?_
    , q2Task := ?_
    , qDisj := fun x hx => hi.qDisj x (hrest x hx)
    , wf := hi.wf
    , usedStore := hi.usedStore
    , usedJobs1 := hi.usedJobs1
    , usedQ1 := fun x hx => hi.usedQ1 x (hrest x hx)
    , usedQ2 := hi.usedQ2
    , usedTasks := ?_
    , procTask2 := ?_
    , procTask1 := ?_
    , runRec2 := ?_
    , dispRec2 := ?_
    , q2Rec := hi.q2Rec
    , keyGone := ?_
    , termNoKey := hi.termNoKey }
  · have := hi.semBal
    simp only [List.length_append, List.length_singleton]
    omega
  · rw [List.map_append, List.nodup_append]
    refine ⟨hi.taskNodup, by simp, ?_⟩
    intro a ha hb
    simp only [List.map_cons, List.map_nil, List.mem_singleton] at hb
    subst hb
    rcases List.mem_map.mp ha with ⟨t, ht, he⟩
    exact hidt t ht he
  · intro x hx t ht
    rcases List.mem_append.mp ht with h | h
    · exact hi.q1Task x (hrest x hx) t h
    · rcases List.mem_singleton.mp h with rfl
      show id ≠ x
      intro he
      exact hq1nd.1 (he ▸ hx)
  · intro x hx t ht
    rcases List.mem_append.mp ht with h | h
    · exact hi.q2Task x hx t h
    · rcases List.mem_singleton.mp h with rfl
      show id ≠ x
      intro he
      exact hi.qDisj id hidq (he ▸ hx)
  · intro t ht
    rcases List.mem_append.mp ht with h | h
    · exact hi.usedTasks t h
    · rcases List.mem_singleton.mp h with rfl
      exact hi.usedQ1 id hidq
  · intro p hp hst
    exact List.mem_append_left _ (hi.procTask2 p hp hst)
  · intro p hp hst
    exact List.mem_append_left _ (hi.procTask1 p hp hst)
  · intro t ht hc hph j hj
    rcases List.mem_append.mp ht with h | h
    · exact hi.runRec2 t h hc hph j hj
    · rcases List.mem_singleton.mp h with rfl
      cases hc
  · intro t ht hc hph j hj
    rcases List.mem_append.mp ht with h | h
    · exact hi.dispRec2 t h hc hph j hj
    · rcases List.mem_singleton.mp h with rfl
      cases hc
  · intro t ht hc hph
    rcases List.mem_append.mp ht with h | h
    · exact hi.keyGone t h hc hph
    · rcases List.mem_singleton.mp h with rfl
      cases hc

/-- Preservation for a step that only rewrites the v1 jobs dict, keeping its
key set and every record's status (v1 log lines, v1 partial results). -/
theorem inv_jobs1_status_step {K : Nat} {s : Sys} (hi : SysInv K s)
    (jobs2 : List (String × V1Job))
    (hkeys : jobs2.map Prod.fst = s.jobs1.map Prod.fst)
    (hstatus : ∀ k, (alistGet jobs2 k).map V1Job.status
      = (alistGet s.jobs1 k).map V1Job.status) :
    SysInv K { s with jobs1 := jobs2 } := by
  have hnd2 : (jobs2.map Prod.fst).Nodup := by rw [hkeys]; exact hi.jobs1Nodup
  refine
    { semBal := hi.semBal
    , taskNodup := hi.taskNodup
    , storeNodup := hi.storeNodup
    , jobs1Nodup := hnd2
    , q1Nodup := hi.q1Nodup
    , q2Nodup := hi.q2Nodup
    , q1Task := hi.q1Task
    , q2Task := hi.q2Task
    , qDisj := hi.qDisj
    , wf := hi.wf
    , usedStore := hi.usedStore
    , usedJobs1 := mem_fst_used hi.usedJobs1 hkeys
    , usedQ1 := hi.usedQ1
    , usedQ2 := hi.usedQ2
    , usedTasks := hi.usedTasks
    , procTask2 := hi.procTask2
    , procTask1 := ?_
    , runRec2 := hi.runRec2
    , dispRec2 := hi.dispRec2
    , q2Rec := hi.q2Rec
    , keyGone := hi.keyGone
    , termNoKey := hi.termNoKey }
  · intro p hp hst
    have hpg : alistGet jobs2 p.1 = some p.2 := alistGet_of_mem_nodup hnd2 hp
    have h1 : (alistGet s.jobs1 p.1).map V1Job.status = some p.2.status := by
      rw [← hstatus p.1, hpg]
      rfl
    rcases Option.map_eq_some'.mp h1 with ⟨q, hq, hqs⟩
    exact hi.procTask1 (p.1, q) (alistGet_mem hq) (hst ▸ hqs)

theorem inv_start1 {K : Nat} {s : Sys} (hi : SysInv K s) (id : String) (j : V1Job)
    (ht : ({ chan := JobChan.v1, id := id, phase := Phase.dispatched } : SupTask) ∈ s.tasks)
    (hrec : alistGet s.jobs1 id = some j) :
    SysInv K { s with
      jobs1 := alistSet s.jobs1 id
        { j with status := JobStatus.processing
               , logs := j.logs ++ ["Job started by worker."] },
      tasks := setTaskPhase s.tasks id Phase.running } := by
  have hkeys : (alistSet s.jobs1 id
      { j with status := JobStatus.processing
             , logs := j.logs ++ ["Job started by worker."] }).map Prod.fst
      = s.jobs1.map Prod.fst := alistSet_keys_present hrec
  have hnd2 : ((alistSet s.jobs1 id
      { j with status := JobStatus.processing
             , logs := j.logs ++ ["Job started by worker."] }).map Prod.fst).Nodup := by
    rw [hkeys]; exact hi.jobs1Nodup
  refine
    { semBal := ?_
    , taskNodup := ?_
    , storeNodup := hi.storeNodup
    , jobs1Nodup := hnd2
    , q1Nodup := hi.q1Nodup
    , q2Nodup := hi.q2Nodup
    , q1Task := ?_
    , q2Task := ?_
    , qDisj := hi.qDisj
    , wf := hi.wf
    , usedStore := hi.usedStore
    , usedJobs1 := mem_fst_used hi.usedJobs1 hkeys
    , usedQ1 := hi.usedQ1
    , usedQ2 := hi.usedQ2
    , usedTasks := ?_
    , procTask2 := ?_
    , procTask1 := ?_
    , runRec2 := ?_
    , dispRec2 := ?_
    , q2Rec := hi.q2Rec
    , keyGone := ?_
    , termNoKey := hi.termNoKey }
  · show s.sem + (setTaskPhase s.tasks id Phase.running).length = K
    rw [setTaskPhase_length]
    exact hi.semBal
  · show ((setTaskPhase s.tasks id Phase.running).map SupTask.id).Nodup
    rw [setTaskPhase_map_id]
    exact hi.taskNodup
  · intro x hx t2 ht2
    rcases mem_setTaskPhase_shape ht2 with ⟨t, htm, hid2, _, _⟩
    rw [hid2]
    exact hi.q1Task x hx t htm
  · intro x hx t2 ht2
    rcases mem_setTaskPhase_shape ht2 with ⟨t, htm, hid2, _, _⟩
    rw [hid2]
    exact hi.q2Task x hx t htm
  · intro t2 ht2
    rcases mem_setTaskPhase_shape ht2 with ⟨t, htm, hid2, _, _⟩
    rw [hid2]
    exact hi.usedTasks t htm
  · intro p hp hst
    have hrun := hi.procTask2 p hp hst
    by_cases hp1 : p.1 = id
    · exfalso
      have hequ := task_unique hi.taskNodup hrun ht (by simpa using hp1)
      simp at hequ
    · exact mem_setTaskPhase_of_ne hrun hp1
  · intro p hp hst
    rcases mem_alistSet hp with h | h
    · rw [h]
      exact mem_setTaskPhase_self ht
    · have hrun := hi.procTask1 p h hst
      by_cases hp1 : p.1 = id
      · rw [hp1]
        exact mem_setTaskPhase_self ht
      · exact mem_setTaskPhase_of_ne hrun hp1
  · intro t2 ht2 hc hph j2 hj2
    rcases mem_setTaskPhase_shape ht2 with ⟨t, htm, hid2, hchan, hcase⟩
    rcases hcase with ⟨hne, hteq⟩ | ⟨hide, hteq⟩
    · exact hi.runRec2 t htm (hchan ▸ hc) (hteq ▸ hph) j2 (by rw [← hid2]; exact hj2)
    · exfalso
      have hequ := task_unique hi.taskNodup htm ht (by simpa using hide)
      rw [hequ] at hchan
      rw [hchan] at hc
      cases hc
  · intro t2 ht2 hc hph j2 hj2
    rcases mem_setTaskPhase_shape ht2 with ⟨t, htm, hid2, hchan, hcase⟩
    rcases hcase with ⟨hne, hteq⟩ | ⟨hide, hteq⟩
    · exact hi.dispRec2 t htm (hchan ▸ hc) (hteq ▸ hph) j2 (by rw [← hid2]; exact hj2)
    · exfalso
      have hequ := task_unique hi.taskNodup htm ht (by simpa using hide)
      rw [hequ] at hchan
      rw [hchan] at hc
      cases hc
  · intro t2 ht2 hc hph
    rcases mem_setTaskPhase_shape ht2 with ⟨t, htm, hid2, hchan, hcase⟩
    rcases hcase with ⟨hne, hteq⟩ | ⟨hide, hteq⟩
    · rw [hid2]
      exact hi.keyGone t htm (hchan ▸ hc) (hteq ▸ hph)
    · rw [hteq] at hph
      simp at hph

theorem inv_term1 {K : Nat} {s : Sys} (hi : SysInv K s) (id : String)
    (f : V1Job → V1Job)
    (hfst : ∀ j, (f j).status = JobStatus.completed ∨ (f j).status = JobStatus.failed)
    (ht : ({ chan := JobChan.v1, id := id, phase := Phase.running } : SupTask) ∈ s.tasks) :
    SysInv K { s with
      jobs1 := v1Mutate s.jobs1 id f,
      tasks := setTaskPhase s.tasks id Phase.finishedRun } := by
  have hkeys : (v1Mutate s.jobs1 id f).map Prod.fst = s.jobs1.map Prod.fst :=
    v1Mutate_keys s.jobs1 id f
  have hnd2 : ((v1Mutate s.jobs1 id f).map Prod.fst).Nodup := by
    rw [hkeys]; exact hi.jobs1Nodup
  refine
    { semBal := ?_
    , taskNodup := ?_
    , storeNodup := hi.storeNodup
    , jobs1Nodup := hnd2
    , q1Nodup := hi.q1Nodup
    , q2Nodup := hi.q2Nodup
    , q1Task := ?_
    , q2Task := ?_
    , qDisj := hi.qDisj
    , wf := hi.wf
    , usedStore := hi.usedStore
    , usedJobs1 := mem_fst_used hi.usedJobs1 hkeys
    , usedQ1 := hi.usedQ1
    , usedQ2 := hi.usedQ2
    , usedTasks := ?_
    , procTask2 := ?_
    , procTask1 := ?_
    , runRec2 := ?_
    , dispRec2 := ?_
    , q2Rec := hi.q2Rec
    , keyGone := ?_
    , termNoKey := hi.termNoKey }
  · show s.sem + (setTaskPhase s.tasks id Phase.finishedRun).length = K
    rw [setTaskPhase_length]
    exact hi.semBal
  · show ((setTaskPhase s.tasks id Phase.finishedRun).map SupTask.id).Nodup
    rw [setTaskPhase_map_id]
    exact hi.taskNodup
  · intro x hx t2 ht2
    rcases mem_setTaskPhase_shape ht2 with ⟨t, htm, hid2, _, _⟩
    rw [hid2]
    exact hi.q1Task x hx t htm
  · intro x hx t2 ht2
    rcases mem_setTaskPhase_shape ht2 with ⟨t, htm, hid2, _, _⟩
    rw [hid2]
    exact hi.q2Task x hx t htm
  · intro t2 ht2
    rcases mem_setTaskPhase_shape ht2 with ⟨t, htm, hid2, _, _⟩
    rw [hid2]
    exact hi.usedTasks t htm
  · intro p hp hst2
    have hrun := hi.procTask2 p hp hst2
    by_cases hp1 : p.1 = id
    · exfalso
      have hequ := task_unique hi.taskNodup hrun ht (by simpa using hp1)
      simp at hequ
    · exact mem_setTaskPhase_of_ne hrun hp1
  · intro p hp hst2
    have hpg := alistGet_of_mem_nodup hnd2 hp
    by_cases hp1 : p.1 = id
    · exfalso
      rw [hp1, v1Mutate_get_self] at hpg
      rcases Option.map_eq_some'.mp hpg with ⟨q, hq, hqe⟩
      have hqs : p.2.status = (f q).status := by rw [← hqe]
      rw [hst2] at hqs
      rcases hfst q with h | h <;> rw [← hqs] at h <;> cases h
    · rw [v1Mutate_get_other _ hp1] at hpg
      have hrun := hi.procTask1 (p.1, p.2) (alistGet_mem hpg) hst2
      exact mem_setTaskPhase_of_ne hrun hp1
  · intro t2 ht2 hc hph j2 hj2
    rcases mem_setTaskPhase_shape ht2 with ⟨t, htm, hid2, hchan, hcase⟩
    rcases hcase with ⟨hne, hteq⟩ | ⟨hide, hteq⟩
    · exact hi.runRec2 t htm (hchan ▸ hc) (hteq ▸ hph) j2 (by rw [← hid2]; exact hj2)
    · exfalso
      have hequ := task_unique hi.taskNodup htm ht (by simpa using hide)
      rw [hequ] at hchan
      rw [hchan] at hc
      cases hc
  · intro t2 ht2 hc hph j2 hj2
    rcases mem_setTaskPhase_shape ht2 with ⟨t, htm, hid2, hchan, hcase⟩
    rcases hcase with ⟨hne, hteq⟩ | ⟨hide, hteq⟩
    · exact hi.dispRec2 t htm (hchan ▸ hc) (hteq ▸ hph) j2 (by rw [← hid2]; exact hj2)
    · exfalso
      have hequ := task_unique hi.taskNodup htm ht (by simpa using hide)
      rw [hequ] at hchan
      rw [hchan] at hc
      cases hc
  · intro t2 ht2 hc hph
    rcases mem_setTaskPhase_shape ht2 with ⟨t, htm, hid2, hchan, hcase⟩
    rcases hcase with ⟨hne, hteq⟩ | ⟨hide, hteq⟩
    · rw [hid2]
      exact hi.keyGone t htm (hchan ▸ hc) (hteq ▸ hph)
    · exfalso
      have hequ := task_unique hi.taskNodup htm ht (by simpa using hide)
      rw [hequ] at hchan
      rw [hchan] at hc
      cases hc

theorem inv_expire1 {K : Nat} {s : Sys} (hi : SysInv K s) (id : String) :
    SysInv K { s with jobs1 := alistRemove s.jobs1 id } :=
  { semBal := hi.semBal
  , taskNodup := hi.taskNodup
  , storeNodup := hi.storeNodup
  , jobs1Nodup := alistRemove_keys_nodup hi.jobs1Nodup
  , q1Nodup := hi.q1Nodup
  , q2Nodup := hi.q2Nodup
  , q1Task := hi.q1Task
  , q2Task := hi.q2Task
  , qDisj := hi.qDisj
  , wf := hi.wf
  , usedStore := hi.usedStore
  , usedJobs1 := fun p hp => hi.usedJobs1 p (mem_alistRemove hp)
  , usedQ1 := hi.usedQ1
  , usedQ2 := hi.usedQ2
  , usedTasks := hi.usedTasks
  , procTask2 := hi.procTask2
  , procTask1 := fun p hp => hi.procTask1 p (mem_alistRemove hp)
  , runRec2 := hi.runRec2
  , dispRec2 := hi.dispRec2
  , q2Rec := hi.q2Rec
  , keyGone := hi.keyGone
  , termNoKey := hi.termNoKey }

theorem checkPartial_status {s : Store} (hwf : storeWF s) (now : Nat) (fs : OutputFS)
    (id k : String) :
    (storeGet (applyOps now s (check_partial_results_v2 fs id)) k).map JobRecord.status
      = (storeGet s k).map JobRecord.status := by
  rcases checkPartial_cases fs id with h | ⟨r, h⟩
  · rw [h]
    rfl
  · rw [h]
    show (storeGet (set_result s id r) k).map JobRecord.status = _
    exact mutate_field hwf (fun j => recSetResult j r) (fun j => rfl) JobRecord.status
      (fun j => rfl) id k

theorem step_inv {K : Nat} {s t : Sys} (hi : SysInv K s) (hstep : Step K s t) :
    SysInv K t := by
  cases hstep with
  | submit2 id url key cap now hfresh => exact inv_submit2 hi id url key cap now hfresh
  | dispatch2 id rest hq hsem => exact inv_dispatch2 hi id rest hq hsem
  | noJob2 id ht hrec =>
    exact inv_remove_task hi
      { chan := JobChan.v2, id := id, phase := Phase.dispatched } ht (by intro h; cases h)
  | start2 id j now ht hrec => exact inv_start2 hi id j now ht hrec
  | logLine2 id line now =>
    exact inv_store_status_step hi _ (applyOps_keys hi.wf now _) (applyOps_wf hi.wf now _)
      (fun k => logLineOps_field JobRecord.status (fun j m => rfl)
        (fun j p stg => (recUpdateProgress_sre j p stg).1) hi.wf now id line k)
  | scan2 id fs now ht =>
    exact inv_store_status_step hi _ (applyOps_keys hi.wf now _) (applyOps_wf hi.wf now _)
      (fun k => checkPartial_status hi.wf now fs id k)
  | exitZero2 id fs now ht =>
    refine inv_term_step hi id _ ht (applyOps_keys hi.wf now _) (applyOps_wf hi.wf now _)
      ?_ ?_
    · intro k hk
      refine applyOps_get_other hi.wf now ?_
      intro op hop he
      exact hk ((opsFor_finalize fs id op hop).symm.trans he).symm
    · intro j2 hj2
      exact finalizeOps_terminal hi.wf now fs id hj2
  | exitNonzero2 id n now hn ht =>
    refine inv_term_step hi id _ ht
      (mutate_keys hi.wf
        (fun j => recSetStatus j JobStatus.failed
          (some ("Process failed with exit code " ++ toString n)) now)
        (fun j => recSetStatus_job_id j JobStatus.failed
          (some ("Process failed with exit code " ++ toString n)) now) id)
      (set_status_wf hi.wf id JobStatus.failed
        (some ("Process failed with exit code " ++ toString n)) now)
      ?_ ?_
    · intro k hk
      exact mutate_get_other hi.wf
        (fun j => recSetStatus_job_id j JobStatus.failed
          (some ("Process failed with exit code " ++ toString n)) now) (Ne.symm hk)
    · intro j2 hj2
      exact Or.inr (set_status_self_status hi.wf hj2)
  | raise2 id msg now ht =>
    refine inv_term_step hi id _ ht
      (mutate_keys hi.wf
        (fun j => recSetStatus j JobStatus.failed (some msg) now)
        (fun j => recSetStatus_job_id j JobStatus.failed (some msg) now) id)
      (set_status_wf hi.wf id JobStatus.failed (some msg) now)
      ?_ ?_
    · intro k hk
      exact mutate_get_other hi.wf
        (fun j => recSetStatus_job_id j JobStatus.failed (some msg) now) (Ne.symm hk)
    · intro j2 hj2
      exact Or.inr (set_status_self_status hi.wf hj2)
  | finish2 id ht =>
    exact inv_remove_task hi
      { chan := JobChan.v2, id := id, phase := Phase.finishedRun } ht (by intro h; cases h)
  | expire2 id => exact inv_expire2 hi id
  | submit1 id hfresh => exact inv_submit1 hi id hfresh
  | dispatch1 id rest hq hsem => exact inv_dispatch1 hi id rest hq hsem
  | noJob1 id ht hrec =>
    exact inv_remove_task hi
      { chan := JobChan.v1, id := id, phase := Phase.dispatched } ht (by intro h; cases h)
  | start1 id j ht hrec => exact inv_start1 hi id j ht hrec
  | log1 id line =>
    exact inv_jobs1_status_step hi _ (v1Mutate_keys s.jobs1 id _)
      (fun k => v1Mutate_field (fun j => { j with logs := j.logs ++ [line] })
        V1Job.status (fun j => rfl) k)
  | scan1 id res hne ht =>
    exact inv_jobs1_status_step hi _ (v1Mutate_keys s.jobs1 id _)
      (fun k => v1Mutate_field (fun j => { j with result := some res })
        V1Job.status (fun j => rfl) k)
  | term1 id st res hst ht =>
    exact inv_term1 hi id _ (fun j => hst) ht
  | finish1 id ht =>
    exact inv_remove_task hi
      { chan := JobChan.v1, id := id, phase := Phase.finishedRun } ht (by intro h; cases h)
  | expire1 id => exact inv_expire1 hi id

theorem reach_inv {K : Nat} {s : Sys} (h : Reach K s) : SysInv K s := by
  induction h with
  | init => exact initSys_inv K
  | next _ hstep ih => exact step_inv ih hstep

theorem inv_count_le {K : Nat} {s : Sys} (hi : SysInv K s) : countProcessing s ≤ K := by
  have h2sub : ∀ x ∈ procKeys2 s,
      ({ chan := JobChan.v2, id := x, phase := Phase.running } : SupTask) ∈ s.tasks := by
    intro x hx
    rcases List.mem_map.mp hx with ⟨p, hp, he⟩
    have hmem := List.mem_of_mem_filter hp
    have hst : p.2.status = JobStatus.processing := by
      have := List.of_mem_filter hp
      simpa using this
    have hrun := hi.procTask2 p hmem hst
    rw [← he]
    exact hrun
  have h1sub : ∀ x ∈ procKeys1 s,
      ({ chan := JobChan.v1, id := x, phase := Phase.running } : SupTask) ∈ s.tasks := by
    intro x hx
    rcases List.mem_map.mp hx with ⟨p, hp, he⟩
    have hmem := List.mem_of_mem_filter hp
    have hst : p.2.status = JobStatus.processing := by
      have := List.of_mem_filter hp
      simpa using this
    have hrun := hi.procTask1 p hmem hst
    rw [← he]
    exact hrun
  have hnd2 : (procKeys2 s).Nodup :=
    hi.storeNodup.sublist ((List.filter_sublist s.store).map Prod.fst)
  have hnd1 : (procKeys1 s).Nodup :=
    hi.jobs1Nodup.sublist ((List.filter_sublist s.jobs1).map Prod.fst)
  have hdisj : List.Disjoint (procKeys2 s) (procKeys1 s) := by
    intro x h2 h1
    have hequ := task_unique hi.taskNodup (h2sub x h2) (h1sub x h1) rfl
    simp at hequ
  have hnd : (procKeys2 s ++ procKeys1 s).Nodup :=
    List.nodup_append.mpr ⟨hnd2, hnd1, hdisj⟩
  have hsub : procKeys2 s ++ procKeys1 s ⊆ s.tasks.map SupTask.id := by
    intro x hx
    rcases List.mem_append.mp hx with h | h
    · exact List.mem_map.mpr ⟨_, h2sub x h, rfl⟩
    · exact List.mem_map.mpr ⟨_, h1sub x h, rfl⟩
  have hle := (List.subperm_of_subset hnd hsub).length_le
  rw [List.length_append, List.length_map] at hle
  have hbal := hi.semBal
  unfold countProcessing
  omega

/-- C1: for every configured gate capacity K and any number of submissions on
either channel, every reachable state has at most K jobs in Processing status
across both channels, and the semaphore accounting is exact: available slots
plus live supervisor tasks always equal K, so the slot acquired before a
supervisor task starts is released exactly once, when that task is removed —
whether it ended by success, failure, an uncaught exception, or a missing
record. -/
theorem c1_gate_capacity (K : Nat) (s : Sys) (h : Reach K s) :
    countProcessing s ≤ K ∧ s.sem + s.tasks.length = K :=
  ⟨inv_count_le (reach_inv h), (reach_inv h).semBal⟩

/-- Demo trace with K = 1 and a burst of two submissions: a, b submitted;
a dispatched and started. -/
def c1s1 : Sys :=
  { initSys 1 with
    store := create_job (initSys 1).store (newJobRecord "a" "u" demoCaption 0),
    keys := alistSet (initSys 1).keys "a" "k",
    queue2 := (initSys 1).queue2 ++ ["a"],
    used := (initSys 1).used ++ ["a"] }

def c1s2 : Sys :=
  { c1s1 with
    store := create_job c1s1.store (newJobRecord "b" "u" demoCaption 1),
    keys := alistSet c1s1.keys "b" "k",
    queue2 := c1s1.queue2 ++ ["b"],
    used := c1s1.used ++ ["b"] }

def c1s3 : Sys :=
  { c1s2 with
    sem := c1s2.sem - 1,
    queue2 := ["b"],
    tasks := c1s2.tasks ++ [{ chan := JobChan.v2, id := "a", phase := Phase.dispatched }] }

def c1s4 : Sys :=
  { c1s3 with
    store := append_log (set_status c1s3.store "a" JobStatus.processing none 2) "a"
      "Job started by worker.",
    tasks := setTaskPhase c1s3.tasks "a" Phase.running }

theorem c1DemoReach : Reach 1 c1s4 :=
  Reach.next
    (Reach.next
      (Reach.next
        (Reach.next Reach.init
          (Step.submit2 (initSys 1) "a" "u" "k" demoCaption 0 (by decide)))
        (Step.submit2 c1s1 "b" "u" "k" demoCaption 1 (by decide)))
      (Step.dispatch2 c1s2 "a" ["b"] (by decide) (by decide)))
    (Step.start2 c1s3 "a" (newJobRecord "a" "u" demoCaption 0) 2 (by decide) (by decide))

theorem c1_gate_capacity_witness :
    countProcessing c1s4 = 1 ∧
    (countProcessing c1s4 ≤ 1 ∧ c1s4.sem + c1s4.tasks.length = 1) :=
  ⟨by decide, c1_gate_capacity 1 c1s4 c1DemoReach⟩

theorem mutate_none {s : Store} (hwf : storeWF s) (f : JobRecord → JobRecord)
    (hf : ∀ j, (f j).job_id = j.job_id) {id k : String}
    (hnone : storeGet s k = none) : storeGet (mutate s id f) k = none := by
  rw [@mutate_get s hwf f hf id k, hnone]
  rfl

theorem applyOp_none {s : Store} (hwf : storeWF s) (now : Nat) (op : StoreOp) {k : String}
    (hnone : storeGet s k = none) : storeGet (applyOp now s op) k = none := by
  cases op with
  | appendLog id m => exact mutate_none hwf (fun j => recAppendLog j m) (fun j => rfl) hnone
  | setStatus id st e =>
    exact mutate_none hwf (fun j => recSetStatus j st e now)
      (fun j => recSetStatus_job_id j st e now) hnone
  | updateProgress id p stg =>
    exact mutate_none hwf (fun j => recUpdateProgress j p stg)
      (fun j => recUpdateProgress_job_id j p stg) hnone
  | setResult id r => exact mutate_none hwf (fun j => recSetResult j r) (fun j => rfl) hnone

theorem applyOps_none {s : Store} (hwf : storeWF s) (now : Nat) (ops : List StoreOp)
    {k : String} (hnone : storeGet s k = none) : storeGet (applyOps now s ops) k = none := by
  induction ops generalizing s with
  | nil => exact hnone
  | cons op rest ih =>
    rw [show applyOps now s (op :: rest) = applyOps now (applyOp now s op) rest from rfl]
    exact ih (applyOp_wf hwf now op) (applyOp_none hwf now op hnone)

/-- Once an id has no record (and the id was ever allocated), no step recreates
one: helpers are read-modify-write no-ops on absent records and `create_job`
runs only for fresh uuids. -/
theorem none_preserved {K : Nat} {s t : Sys} (hi : SysInv K s) (hstep : Step K s t)
    {id : String} (hused : id ∈ s.used) (hnone : storeGet s.store id = none) :
    storeGet t.store id = none := by
  cases hstep with
  | submit2 id2 url key cap now hfresh =>
    have hne : id ≠ id2 := ne_of_used hused hfresh
    show storeGet (create_job s.store (newJobRecord id2 url cap now)) id = none
    rw [create_job_get]
    rw [if_neg (by simpa [newJobRecord] using hne)]
    exact hnone
  | dispatch2 id2 rest hq hsem => exact hnone
  | noJob2 id2 ht hrec => exact hnone
  | start2 id2 j2 now ht hrec =>
    have hwf1 : storeWF (set_status s.store id2 JobStatus.processing none now) :=
      set_status_wf hi.wf id2 JobStatus.processing none now
    have h1 : storeGet (set_status s.store id2 JobStatus.processing none now) id = none :=
      mutate_none hi.wf (fun j0 => recSetStatus j0 JobStatus.processing none now)
        (fun j0 => recSetStatus_job_id j0 JobStatus.processing none now) hnone
    exact mutate_none hwf1 (fun j0 => recAppendLog j0 "Job started by worker.")
      (fun j0 => rfl) h1
  | logLine2 id2 line now => exact applyOps_none hi.wf now _ hnone
  | scan2 id2 fs now ht => exact applyOps_none hi.wf now _ hnone
  | exitZero2 id2 fs now ht => exact applyOps_none hi.wf now _ hnone
  | exitNonzero2 id2 n now hn ht =>
    exact mutate_none hi.wf
      (fun j0 => recSetStatus j0 JobStatus.failed
        (some ("Process failed with exit code " ++ toString n)) now)
      (fun j0 => recSetStatus_job_id j0 JobStatus.failed
        (some ("Process failed with exit code " ++ toString n)) now) hnone
  | raise2 id2 msg now ht =>
    exact mutate_none hi.wf
      (fun j0 => recSetStatus j0 JobStatus.failed (some msg) now)
      (fun j0 => recSetStatus_job_id j0 JobStatus.failed (some msg) now) hnone
  | finish2 id2 ht => exact hnone
  | expire2 id2 =>
    show alistGet (alistRemove s.store id2) id = none
    rw [alistGet_remove]
    by_cases hk : id = id2
    · rw [if_pos hk]
    · rw [if_neg hk]
      exact hnone
  | submit1 id2 hfresh => exact hnone
  | dispatch1 id2 rest hq hsem => exact hnone
  | noJob1 id2 ht hrec => exact hnone
  | start1 id2 j2 ht hrec => exact hnone
  | log1 id2 line => exact hnone
  | scan1 id2 res hne ht => exact hnone
  | term1 id2 st res hst ht => exact hnone
  | finish1 id2 ht => exact hnone
  | expire1 id2 => exact hnone

theorem step_used_mono {K : Nat} {s t : Sys} (hstep : Step K s t) :
    ∀ x ∈ s.used, x ∈ t.used := by
  cases hstep <;> intro x hx <;> first
    | exact hx
    | exact List.mem_append_left _ hx

theorem steps_used_mono {K : Nat} {s t : Sys} (hs : Steps K s t) :
    ∀ x ∈ s.used, x ∈ t.used := by
  induction hs with
  | refl => exact fun x hx => hx
  | tail _ hstep ih => exact fun x hx => step_used_mono hstep x (ih x hx)

/-- One step never changes the status, result or error of a record that is
already terminal (it can only be deleted by expiry). -/
theorem terminal_preserved_step {K : Nat} {s t : Sys} (hi : SysInv K s)
    (hstep : Step K s t) {id : String} {j : JobRecord}
    (hj : storeGet s.store id = some j)
    (hterm : j.status = JobStatus.completed ∨ j.status = JobStatus.failed) :
    storeGet t.store id = none ∨
      ∃ j2, storeGet t.store id = some j2 ∧ j2.status = j.status ∧
        j2.result = j.result ∧ j2.error = j.error := by
  have hused : id ∈ s.used := hi.usedStore (id, j) (alistGet_mem hj)
  cases hstep with
  | submit2 id2 url key cap now hfresh =>
    right
    refine ⟨j, ?_, rfl, rfl, rfl⟩
    show storeGet (create_job s.store (newJobRecord id2 url cap now)) id = some j
    rw [create_job_get, if_neg (by simpa [newJobRecord] using ne_of_used hused hfresh)]
    exact hj
  | dispatch2 id2 rest hq hsem => exact Or.inr ⟨j, hj, rfl, rfl, rfl⟩
  | noJob2 id2 ht hrec => exact Or.inr ⟨j, hj, rfl, rfl, rfl⟩
  | start2 id2 j0 now ht hrec =>
    have hne : id ≠ id2 := by
      intro he
      rw [he] at hj
      rw [hj] at hrec
      injection hrec with hrec2
      have := hi.dispRec2 _ ht rfl rfl j (hrec2 ▸ hj)
      rw [this] at hterm
      rcases hterm with h | h <;> cases h
    right
    refine ⟨j, ?_, rfl, rfl, rfl⟩
    have hwf1 : storeWF (set_status s.store id2 JobStatus.processing none now) :=
      set_status_wf hi.wf id2 JobStatus.processing none now
    have e1 : storeGet (append_log (set_status s.store id2 JobStatus.processing none now)
        id2 "Job started by worker.") id
        = storeGet (set_status s.store id2 JobStatus.processing none now) id :=
      @mutate_get_other _ hwf1 (fun j0 => recAppendLog j0 "Job started by worker.")
        (fun j0 => rfl) id2 id (Ne.symm hne)
    have e2 : storeGet (set_status s.store id2 JobStatus.processing none now) id
        = storeGet s.store id :=
      @mutate_get_other s.store hi.wf
        (fun j0 => recSetStatus j0 JobStatus.processing none now)
        (fun j0 => recSetStatus_job_id j0 JobStatus.processing none now) id2 id
        (Ne.symm hne)
    exact (e1.trans e2).trans hj
  | logLine2 id2 line now =>
    have hsA := logLineOps_field JobRecord.status (fun j0 m => rfl)
      (fun j0 p stg => (recUpdateProgress_sre j0 p stg).1) hi.wf now id2 line id
    have hsB := logLineOps_field JobRecord.result (fun j0 m => rfl)
      (fun j0 p stg => (recUpdateProgress_sre j0 p stg).2.1) hi.wf now id2 line id
    have hsC := logLineOps_field JobRecord.error (fun j0 m => rfl)
      (fun j0 p stg => (recUpdateProgress_sre j0 p stg).2.2) hi.wf now id2 line id
    rw [hj] at hsA hsB hsC
    cases h2 : storeGet (applyOps now s.store (logLineOps id2 line)) id with
    | none => rw [h2] at hsA; cases hsA
    | some j2 =>
      rw [h2] at hsA hsB hsC
      right
      refine ⟨j2, rfl, ?_, ?_, ?_⟩
      · injection hsA
      · injection hsB
      · injection hsC
  | scan2 id2 fs now ht =>
    have hne : id ≠ id2 := by
      intro he
      have := hi.runRec2 _ ht rfl rfl j (he ▸ hj)
      rw [this] at hterm
      rcases hterm with h | h <;> cases h
    right
    refine ⟨j, ?_, rfl, rfl, rfl⟩
    rw [show ({ s with store := applyOps now s.store (check_partial_results_v2 fs id2) } :
      Sys).store = applyOps now s.store (check_partial_results_v2 fs id2) from rfl]
    rw [applyOps_get_other hi.wf now
      (fun op hop he => hne (((opsFor_checkPartial fs id2 op hop).symm.trans he).symm))]
    exact hj
  | exitZero2 id2 fs now ht =>
    have hne : id ≠ id2 := by
      intro he
      have := hi.runRec2 _ ht rfl rfl j (he ▸ hj)
      rw [this] at hterm
      rcases hterm with h | h <;> cases h
    right
    refine ⟨j, ?_, rfl, rfl, rfl⟩
    rw [show ({ s with
        store := applyOps now s.store (finalizeOps fs id2),
        keys := alistRemove s.keys id2,
        tasks := setTaskPhase s.tasks id2 Phase.finishedRun } : Sys).store
      = applyOps now s.store (finalizeOps fs id2) from rfl]
    rw [applyOps_get_other hi.wf now
      (fun op hop he => hne (((opsFor_finalize fs id2 op hop).symm.trans he).symm))]
    exact hj
  | exitNonzero2 id2 n now hn ht =>
    have hne : id ≠ id2 := by
      intro he
      have := hi.runRec2 _ ht rfl rfl j (he ▸ hj)
      rw [this] at hterm
      rcases hterm with h | h <;> cases h
    right
    refine ⟨j, ?_, rfl, rfl, rfl⟩
    have e2 : storeGet (set_status s.store id2 JobStatus.failed
        (some ("Process failed with exit code " ++ toString n)) now) id
        = storeGet s.store id :=
      @mutate_get_other s.store hi.wf
        (fun j0 => recSetStatus j0 JobStatus.failed
          (some ("Process failed with exit code " ++ toString n)) now)
        (fun j0 => recSetStatus_job_id j0 JobStatus.failed
          (some ("Process failed with exit code " ++ toString n)) now) id2 id
        (Ne.symm hne)
    exact e2.trans hj
  | raise2 id2 msg now ht =>
    have hne : id ≠ id2 := by
      intro he
      have := hi.runRec2 _ ht rfl rfl j (he ▸ hj)
      rw [this] at hterm
      rcases hterm with h | h <;> cases h
    right
    refine ⟨j, ?_, rfl, rfl, rfl⟩
    have e2 : storeGet (set_status s.store id2 JobStatus.failed (some msg) now) id
        = storeGet s.store id :=
      @mutate_get_other s.store hi.wf
        (fun j0 => recSetStatus j0 JobStatus.failed (some msg) now)
        (fun j0 => recSetStatus_job_id j0 JobStatus.failed (some msg) now) id2 id
        (Ne.symm hne)
    exact e2.trans hj
  | finish2 id2 ht => exact Or.inr ⟨j, hj, rfl, rfl, rfl⟩
  | expire2 id2 =>
    by_cases hk : id = id2
    · left
      show alistGet (alistRemove s.store id2) id = none
      rw [alistGet_remove, if_pos hk]
    · right
      refine ⟨j, ?_, rfl, rfl, rfl⟩
      show alistGet (alistRemove s.store id2) id = some j
      rw [alistGet_remove, if_neg hk]
      exact hj
  | submit1 id2 hfresh => exact Or.inr ⟨j, hj, rfl, rfl, rfl⟩
  | dispatch1 id2 rest hq hsem => exact Or.inr ⟨j, hj, rfl, rfl, rfl⟩
  | noJob1 id2 ht hrec => exact Or.inr ⟨j, hj, rfl, rfl, rfl⟩
  | start1 id2 j0 ht hrec => exact Or.inr ⟨j, hj, rfl, rfl, rfl⟩
  | log1 id2 line => exact Or.inr ⟨j, hj, rfl, rfl, rfl⟩
  | scan1 id2 res hne ht => exact Or.inr ⟨j, hj, rfl, rfl, rfl⟩
  | term1 id2 st res hst ht => exact Or.inr ⟨j, hj, rfl, rfl, rfl⟩
  | finish1 id2 ht => exact Or.inr ⟨j, hj, rfl, rfl, rfl⟩
  | expire1 id2 => exact Or.inr ⟨j, hj, rfl, rfl, rfl⟩

/-- C2: in every execution of the pipeline, once a job's stored record is
Completed or Failed, no later store operation (append_log, set_status,
update_progress, set_result, as issued by any later step of either channel)
changes its status, result or error; the record can only disappear entirely
through TTL expiry. -/
theorem c2_terminal_sticky (K : Nat) (s t : Sys) (hr : Reach K s) (hs : Steps K s t)
    (id : String) (j : JobRecord) (hj : storeGet s.store id = some j)
    (hterm : j.status = JobStatus.completed ∨ j.status = JobStatus.failed) :
    storeGet t.store id = none ∨
      ∃ j2, storeGet t.store id = some j2 ∧ j2.status = j.status ∧
        j2.result = j.result ∧ j2.error = j.error := by
  have husd : id ∈ s.used := (reach_inv hr).usedStore (id, j) (alistGet_mem hj)
  induction hs with
  | refl => exact Or.inr ⟨j, hj, rfl, rfl, rfl⟩
  | tail hsteps hstep ih =>
    have hrt := reach_of_steps hr hsteps
    rcases ih with hnone | ⟨j2, hj2, hst, hres, herr⟩
    · left
      exact none_preserved (reach_inv hrt) hstep (steps_used_mono hsteps id husd) hnone
    · rcases terminal_preserved_step (reach_inv hrt) hstep hj2
        (by rw [hst]; exact hterm) with h | ⟨j3, hj3, h3s, h3r, h3e⟩
      · exact Or.inl h
      · exact Or.inr ⟨j3, hj3, h3s.trans hst, h3r.trans hres, h3e.trans herr⟩

/-- The C1 demo trace continued: job a fails with exit code 7, then a late log
line for a arrives after the terminal state. -/
def c2s5 : Sys :=
  { c1s4 with
    store := set_status c1s4.store "a" JobStatus.failed
      (some ("Process failed with exit code " ++ toString (7 : Int))) 3,
    keys := alistRemove c1s4.keys "a",
    tasks := setTaskPhase c1s4.tasks "a" Phase.finishedRun }

theorem c2Reach5 : Reach 1 c2s5 :=
  Reach.next c1DemoReach (Step.exitNonzero2 c1s4 "a" 7 3 (by decide) (by decide))

def c2s6 : Sys :=
  { c2s5 with store := applyOps 4 c2s5.store (logLineOps "a" "late line") }

theorem c2Steps56 : Steps 1 c2s5 c2s6 :=
  Steps.tail (Steps.refl c2s5) (Step.logLine2 c2s5 "a" "late line" 4)

/-- The record of job a in the demo after its exit-code-7 failure. -/
def c2jA : JobRecord :=
  { job_id := "a", status := JobStatus.failed, input_url := "u",
    caption_settings := demoCaption, created_at := 0, started_at := some 2,
    completed_at := some 3, progress_percentage := 0, progress_stage := none,
    logs := ["Job a queued.", "Job started by worker."], result := none,
    error := some "Process failed with exit code 7" }

theorem c2_terminal_sticky_witness :
    storeGet c2s6.store "a" = none ∨
      ∃ j2, storeGet c2s6.store "a" = some j2 ∧ j2.status = c2jA.status ∧
        j2.result = c2jA.result ∧ j2.error = c2jA.error :=
  c2_terminal_sticky 1 c2s5 c2s6 c2Reach5 c2Steps56 "a" c2jA (by decide) (by decide)

/-- C4 counterexample trace: job a is submitted (its api key stored in the
in-memory map), its record then expires, the dispatcher still dispatches the
queued id, and the wrapper finds no job record and returns — releasing the
slot in its `finally` but never reaching `run_job_v2`'s cleanup. -/
def c4s1 : Sys :=
  { initSys 1 with
    store := create_job (initSys 1).store (newJobRecord "a" "u" demoCaption 0),
    keys := alistSet (initSys 1).keys "a" "k",
    queue2 := (initSys 1).queue2 ++ ["a"],
    used := (initSys 1).used ++ ["a"] }

def c4s2 : Sys := { c4s1 with store := alistRemove c4s1.store "a" }

def c4s3 : Sys :=
  { c4s2 with
    sem := c4s2.sem - 1,
    queue2 := [],
    tasks := c4s2.tasks ++ [{ chan := JobChan.v2, id := "a", phase := Phase.dispatched }] }

def c4s4 : Sys :=
  { c4s3 with tasks := removeTask c4s3.tasks "a", sem := c4s3.sem + 1 }

theorem c4Reach4 : Reach 1 c4s4 :=
  Reach.next
    (Reach.next
      (Reach.next
        (Reach.next Reach.init
          (Step.submit2 (initSys 1) "a" "u" "k" demoCaption 0 (by decide)))
        (Step.expire2 c4s1 "a"))
      (Step.dispatch2 c4s2 "a" [] (by decide) (by decide)))
    (Step.noJob2 c4s3 "a" (by decide) (by decide))

/-- C4 counterexample: a reachable state in which the supervisor wrapper for
job a has fully finished (no live task, all K slots free) and the job never
reached a terminal state, yet a's ephemeral secret is still retrievable from
the in-memory map: the missing-job-record exit path of `run_job_v2_wrapper`
returns before `run_job_v2`'s `finally` deletes `job_api_keys[job_id]`. -/
theorem c4_missing_record_counterexample :
    Reach 1 c4s4 ∧ c4s4.tasks = [] ∧ c4s4.sem = 1 ∧
    alistGet c4s4.keys "a" = some "k" :=
  ⟨c4Reach4, by decide, by decide, by decide⟩

/-- C4 as amended: the secret is erased on every exit path of `run_job_v2`
itself — every supervisor task that has finished its run (success, failure or
uncaught exception inside the supervised body) has no key left, and any job
whose record is terminal has no key left; but on the missing-job-record path
the wrapper returns before `run_job_v2` starts and the secret survives
(see the counterexample). -/
theorem c4_secret_erased (K : Nat) (s : Sys) (h : Reach K s) :
    (∀ t ∈ s.tasks, t.chan = JobChan.v2 → t.phase = Phase.finishedRun →
      alistGet s.keys t.id = none) ∧
    (∀ p ∈ s.store, (p.2.status = JobStatus.completed ∨ p.2.status = JobStatus.failed) →
      alistGet s.keys p.1 = none) :=
  ⟨(reach_inv h).keyGone, (reach_inv h).termNoKey⟩

theorem c4_secret_erased_witness :
    (({ chan := JobChan.v2, id := "a", phase := Phase.finishedRun } : SupTask) ∈ c2s5.tasks
      ∧ alistGet c2s5.keys "a" = none) ∧
    ((∀ t ∈ c2s5.tasks, t.chan = JobChan.v2 → t.phase = Phase.finishedRun →
        alistGet c2s5.keys t.id = none) ∧
      (∀ p ∈ c2s5.store,
        (p.2.status = JobStatus.completed ∨ p.2.status = JobStatus.failed) →
        alistGet c2s5.keys p.1 = none)) :=
  ⟨by decide, c4_secret_erased 1 c2s5 c2Reach5⟩
